import Mathlib

/-!
# Verification of the schema-tui interactive editing engine

A shallow embedding of the core of the `schema-tui` repository:
the conditional-visibility evaluator (`src/tui/conditions.rs`), the
script-variable substitution and option resolver (`src/options/resolver.rs`,
`src/options/cache.rs`), the widget state machines
(`src/tui/widgets/*.rs`) and the app controller's edit-commit path
(`src/tui/app.rs`).

Rust strings are embedded as `List Char` (named `Str` below) so that the
string-processing functions of the source can be reasoned about by
structural induction.  `serde_json::Value` is embedded as `JValue`,
restricted to the variants the engine manipulates (strings, i64-backed
numbers, booleans, plus a `vnull` standing for the remaining variants).
External collaborators (the process spawner, the JSON parser of
`serde_json::from_str::<Vec<String>>`) are parameters of the embedded
functions, as they are I/O boundaries of the program.
-/

set_option autoImplicit false

namespace SchemaTui

/-- Rust `&str` / `String`, embedded as a list of characters. -/
abbrev Str := List Char

/-- Rust `str::trim` (whitespace at both ends removed; the engine only
meets ASCII whitespace). -/
def strTrim (s : Str) : Str :=
  ((s.dropWhile Char.isWhitespace).reverse.dropWhile Char.isWhitespace).reverse

/-- Rust `str::trim_matches(c)`: strip all leading and trailing
occurrences of `c`. -/
def trimMatches (c : Char) (s : Str) : Str :=
  ((s.dropWhile (· = c)).reverse.dropWhile (· = c)).reverse

/-- Rust `str::split_once(sep)` for a non-empty separator: split at the
first occurrence of `sep`, returning the text before and after it. -/
def splitOnce : Str → Str → Option (Str × Str)
  | [], sep => if sep = [] then some ([], []) else none
  | c :: rest, sep =>
    if sep.isPrefixOf (c :: rest) then
      some ([], (c :: rest).drop sep.length)
    else
      match splitOnce rest sep with
      | some (pre, post) => some (c :: pre, post)
      | none => none

/-- Digits-only decimal parse (helper for `parseI64`). -/
def parseDigits : Str → Option Nat
  | [] => none
  | ds =>
    ds.foldl
      (fun acc c =>
        match acc with
        | none => none
        | some n => if c.isDigit then some (n * 10 + (c.toNat - 48)) else none)
      (some 0)

/-- Rust `str::parse::<i64>()`: optional sign, then decimal digits,
rejecting values outside the i64 range. -/
def parseI64 (s : Str) : Option Int :=
  let core : Str → Option Int := fun ds => (parseDigits ds).map Int.ofNat
  let r : Option Int :=
    match s with
    | '-' :: rest => (core rest).map (fun n => -n)
    | '+' :: rest => core rest
    | _ => core s
  r.bind (fun n => if -(2 ^ 63) ≤ n ∧ n < 2 ^ 63 then some n else none)

/-- Decimal rendering of an `Int` (Rust `i64`/`serde_json::Number`
`Display`). -/
def intToStr (n : Int) : Str := (toString n).toList

/-- The subset of `serde_json::Value` the engine manipulates.  `vnull`
stands in for the `Null`/`Array`/`Object` variants, which every embedded
function treats through its catch-all arm. -/
inductive JValue where
  | vstr (s : Str)
  | vint (n : Int)
  | vbool (b : Bool)
  | vnull
  deriving DecidableEq, Repr

/-- The value map: qualified key to dynamically-typed value
(`HashMap<String, Value>` read through `get`). -/
abbrev ValueMap := Str → Option JValue

/-- `src/tui/conditions.rs::evaluate_condition`, embedded clause by
clause: try `==` first, then `!=`; look the trimmed key up in the value
map; compare according to the stored value's variant; every path that
falls through returns `true`. -/
def evaluate_condition (condition : Str) (values : ValueMap) : Bool :=
  let condition := strTrim condition
  match splitOnce condition ('=' :: '=' :: []) with
  | some (field_part, value_part) =>
    let field_key := strTrim field_part
    let expected_value := strTrim value_part
    match values field_key with
    | some (JValue.vbool b) =>
      if expected_value = ('t' :: 'r' :: 'u' :: 'e' :: []) then b
      else if expected_value = ('f' :: 'a' :: 'l' :: 's' :: 'e' :: []) then !b
      else true
    | some (JValue.vstr s) =>
      let expected := trimMatches '\'' (trimMatches '"' expected_value)
      s = expected
    | some (JValue.vint n) =>
      match parseI64 expected_value with
      | some m => n = m
      | none => true
    | _ => true
  | none =>
    match splitOnce condition ('!' :: '=' :: []) with
    | some (field_part, value_part) =>
      let field_key := strTrim field_part
      let expected_value := strTrim value_part
      match values field_key with
      | some (JValue.vbool b) =>
        if expected_value = ('t' :: 'r' :: 'u' :: 'e' :: []) then !b
        else if expected_value = ('f' :: 'a' :: 'l' :: 's' :: 'e' :: []) then b
        else true
      | some (JValue.vstr s) =>
        let expected := trimMatches '\'' (trimMatches '"' expected_value)
        s ≠ expected
      | _ => true
    | none => true

/-- The spec's reading of the visibility grammar (section 4.4 of the
spec): `<key> == <literal>` or `<key> != <literal>`, the literal being
`true`, `false`, a bare integer, or a quoted/unquoted string; the stored
value's type selects the comparison, and an absent key or an
incompatible type yields `true` (fail-open).  Used only to compare the
source's `evaluate_condition` against the claim's wording. -/
def specEvalCondition (condition : Str) (values : ValueMap) : Bool :=
  let condition := strTrim condition
  let evalCmp : Str → Str → (Bool → Bool) → Bool := fun field_part value_part polarity =>
    let field_key := strTrim field_part
    let lit := strTrim value_part
    match values field_key with
    | none => true
    | some (JValue.vbool b) =>
      if lit = ('t' :: 'r' :: 'u' :: 'e' :: []) then polarity b
      else if lit = ('f' :: 'a' :: 'l' :: 's' :: 'e' :: []) then polarity (!b)
      else true
    | some (JValue.vstr s) =>
      polarity (s = trimMatches '\'' (trimMatches '"' lit))
    | some (JValue.vint n) =>
      match parseI64 lit with
      | some m => polarity (n = m)
      | none => true
    | some JValue.vnull => true
  match splitOnce condition ('=' :: '=' :: []) with
  | some (field_part, value_part) => evalCmp field_part value_part id
  | none =>
    match splitOnce condition ('!' :: '=' :: []) with
    | some (field_part, value_part) => evalCmp field_part value_part not
    | none => true

/-! ## Script variable substitution (`src/options/resolver.rs::substitute_variables`)

The Rust code compiles the regex `\$\{([^}]+)\}`, iterates over its
captures in the *original* command, and for each capture performs a
global `String::replace` of the full match on the evolving result.  The
regex scan is embedded as `findVars` (the list of captured variable
names, in match order) and `String::replace` as `replaceAll`. -/

/-- Split a string at its first closing brace: `some (before, after)` when
a closing brace exists.  Mirrors the `[^}]+\}` tail of the regex. -/
def breakAtBrace : Str → Option (Str × Str)
  | [] => none
  | c :: rest =>
    if c = '}' then some ([], rest)
    else (breakAtBrace rest).map (fun p => (c :: p.1, p.2))

theorem breakAtBrace_length :
    ∀ (s b a : Str), breakAtBrace s = some (b, a) → a.length < s.length := by
  intro s
  induction s with
  | nil => intro b a h; simp [breakAtBrace] at h
  | cons c rest ih =>
    intro b a h
    simp only [breakAtBrace] at h
    split at h
    · simp only [Option.some.injEq, Prod.mk.injEq] at h
      obtain ⟨-, rfl⟩ := h
      simp
    · cases hb : breakAtBrace rest with
      | none => rw [hb] at h; simp at h
      | some p =>
        rw [hb] at h
        simp only [Option.map_some', Option.some.injEq, Prod.mk.injEq] at h
        obtain ⟨-, rfl⟩ := h
        have := ih p.1 p.2 hb
        simp only [List.length_cons]
        omega

/-- The capture scan of the regex `\$\{([^}]+)\}` over the original
command: the list of captured variable names in match order.  On a
failed match attempt the scan advances one character, as the regex
engine does. -/
def findVars : Str → List Str
  | [] => []
  | [_] => []
  | c :: d :: rest2 =>
    if c = '$' ∧ d = '{' then
      match heq : breakAtBrace rest2 with
      | some (name, after) =>
        if name = [] then findVars (d :: rest2) else name :: findVars after
      | none => findVars (d :: rest2)
    else findVars (d :: rest2)
termination_by s => s.length
decreasing_by
  · simp only [List.length_cons]; omega
  · have := breakAtBrace_length rest2 name after heq
    simp only [List.length_cons]; omega
  · simp only [List.length_cons]; omega
  · simp only [List.length_cons]; omega

/-- Rust `String::replace(pat, rep)`: replace every non-overlapping
occurrence of `pat`, scanning left to right.  (The source only calls it
with the non-empty full regex match as `pat`.) -/
def replaceAll (pat rep : Str) : Str → Str
  | [] => []
  | c :: rest =>
    if pat ≠ [] ∧ pat.isPrefixOf (c :: rest) then
      rep ++ replaceAll pat rep ((c :: rest).drop pat.length)
    else c :: replaceAll pat rep rest
termination_by s => s.length
decreasing_by
  · rename_i h
    have hp : pat.length ≥ 1 := by
      cases pat with
      | nil => exact absurd rfl h.1
      | cons _ _ => simp
    simp only [List.length_drop, List.length_cons]
    omega
  · simp

/-- The full regex match text for a captured variable name. -/
def mkPat (name : Str) : Str := '$' :: '{' :: (name ++ ['}'])

/-- The stringification of a looked-up value in
`substitute_variables`: `Value::String` verbatim, `Value::Number` in
decimal, `Value::Bool` as `true`/`false`, anything else (including a
missing key) as the empty string. -/
def stringifyValue (v : Option JValue) : Str :=
  match v with
  | some (JValue.vstr s) => s
  | some (JValue.vint n) => intToStr n
  | some (JValue.vbool b) => if b then 't' :: 'r' :: 'u' :: 'e' :: [] else 'f' :: 'a' :: 'l' :: 's' :: 'e' :: []
  | some JValue.vnull => []
  | none => []

/-- `src/options/resolver.rs::substitute_variables`: for each capture of
the regex over the *original* command (in match order), globally replace
the full match in the evolving result with the stringified value.  The
Rust function returns `Result` but every path returns `Ok`, so the
embedding is total. -/
def substitute_variables (command : Str) (values : ValueMap) : Str :=
  (findVars command).foldl
    (fun result var => replaceAll (mkPat var) (stringifyValue (values var)) result)
    command

/-- One-pass simultaneous substitution, as the spec words it: walk the
template once, replace each placeholder occurrence by its stringified
value, never re-scan substituted text. -/
def specSubstitute (values : ValueMap) : Str → Str
  | [] => []
  | [c] => [c]
  | c :: d :: rest2 =>
    if c = '$' ∧ d = '{' then
      match heq : breakAtBrace rest2 with
      | some (name, after) =>
        if name = [] then c :: specSubstitute values (d :: rest2)
        else stringifyValue (values name) ++ specSubstitute values after
      | none => c :: specSubstitute values (d :: rest2)
    else c :: specSubstitute values (d :: rest2)
termination_by s => s.length
decreasing_by
  · simp only [List.length_cons]; omega
  · have := breakAtBrace_length rest2 name after heq
    simp only [List.length_cons]; omega
  · simp only [List.length_cons]; omega
  · simp only [List.length_cons]; omega

/-- A template token: a literal segment or a `${name}` placeholder.
Token lists describe the shape of a command template; rendering them
produces the concrete template string the source functions receive. -/
inductive Tok where
  | lit (l : Str)
  | var (v : Str)
  deriving DecidableEq, Repr

/-- Render one token: a literal verbatim, a placeholder as its full
`${name}` match text. -/
def renderTok : Tok → Str
  | Tok.lit l => l
  | Tok.var v => mkPat v

/-- Render a token list into the template string. -/
def renderTemplate (ts : List Tok) : Str := (ts.map renderTok).join

/-- The placeholder names of a token list, in order. -/
def varsOf (ts : List Tok) : List Str :=
  ts.filterMap (fun t => match t with | Tok.var v => some v | Tok.lit _ => none)

/-- One-pass simultaneous substitution at the token level: each
placeholder becomes its stringified value, literals stay. -/
def renderSubbed (values : ValueMap) (ts : List Tok) : Str :=
  (ts.map (fun t => match t with
    | Tok.lit l => l
    | Tok.var v => stringifyValue (values v))).join

/-- Replace one placeholder by a literal in a token. -/
def substTok (v : Str) (rep : Str) : Tok → Tok
  | Tok.var w => if w = v then Tok.lit rep else Tok.var w
  | Tok.lit l => Tok.lit l

/-! ## Option cache (`src/options/cache.rs`) and script resolution
(`src/options/resolver.rs`)

`std::time::Instant` timestamps are embedded as `Nat` nanoseconds;
`Duration::from_secs(d)` is `d * nsPerSec`.  `cached.timestamp.elapsed()`
is `now - timestamp` (the caller's `now` is never before the stored
timestamp in a run).  Process execution and the JSON parse of
`serde_json::from_str::<Vec<String>>` are I/O-boundary parameters. -/

/-- Nanoseconds per second (`Duration::from_secs`). -/
def nsPerSec : Nat := 1000000000

/-- `cache.rs::CachedOptions`: raw option list, captured timestamp,
duration. -/
structure CachedOptions where
  options : List Str
  timestamp : Nat
  duration : Nat
  deriving DecidableEq, Repr

/-- `cache.rs::OptionCache`: a `HashMap<String, CachedOptions>`,
embedded as an association list with replace-on-insert. -/
abbrev OptionCache := List (Str × CachedOptions)

/-- `HashMap::get`-style lookup. -/
def lookupCache (cache : OptionCache) (key : Str) : Option CachedOptions :=
  match cache with
  | [] => none
  | (k, v) :: rest => if k = key then some v else lookupCache rest key

/-- `OptionCache::get`: return the entry's options only while
`now - timestamp < duration`; an expired entry is treated as absent. -/
def OptionCache.get (cache : OptionCache) (key : Str) (now : Nat) : Option (List Str) :=
  (lookupCache cache key).bind
    (fun cached => if now - cached.timestamp < cached.duration then some cached.options else none)

/-- `HashMap::insert`-style replace-or-append. -/
def insertCache (cache : OptionCache) (key : Str) (v : CachedOptions) : OptionCache :=
  match cache with
  | [] => [(key, v)]
  | (k, w) :: rest => if k = key then (key, v) :: rest else (k, w) :: insertCache rest key v

/-- `OptionCache::insert`: store the options with `timestamp = now` and
`duration = Duration::from_secs(duration_secs)`. -/
def OptionCache.insert (cache : OptionCache) (key : Str) (options : List Str)
    (duration_secs : Nat) (now : Nat) : OptionCache :=
  insertCache cache key ⟨options, now, duration_secs * nsPerSec⟩

/-- The observable outcome of running `sh -c <command>`. -/
structure ExecOutput where
  success : Bool
  stdout : Str
  stderr : Str

/-- The cache key of `resolve_from_script`:
`format!("{}:{}", command, substituted_command)`. -/
def scriptCacheKey (command : Str) (values : ValueMap) : Str :=
  command ++ ':' :: substitute_variables command values

/-- `resolver.rs::resolve_from_script` (the `async` path used by
`resolve`): substitute variables, consult the cache when a TTL is
declared, otherwise execute; a non-zero exit is an error; the output is
parsed as a JSON array of strings with **no** fallback (`serde_json::from_str`
followed by `?`); on success with a TTL the result is stored.  Returns
the result, the updated cache, and whether the process was executed. -/
def resolve_from_script (exec : Str → ExecOutput) (parseJson : Str → Option (List Str))
    (command : Str) (cache_duration : Option Nat) (values : ValueMap)
    (cache : OptionCache) (now : Nat) :
    Except Str (List Str) × OptionCache × Bool :=
  let substituted_command := substitute_variables command values
  let cache_key := command ++ ':' :: substituted_command
  let run : Except Str (List Str) × OptionCache × Bool :=
    let output := exec substituted_command
    if output.success = false then
      (Except.error output.stderr, cache, true)
    else
      match parseJson output.stdout with
      | none => (Except.error ('j' :: 's' :: 'o' :: 'n' :: []), cache, true)
      | some options =>
        match cache_duration with
        | some duration => (Except.ok options, OptionCache.insert cache cache_key options duration now, true)
        | none => (Except.ok options, cache, true)
  if cache_duration.isSome then
    match OptionCache.get cache cache_key now with
    | some cached => (Except.ok cached, cache, false)
    | none => run
  else run

/-- Rust `str::lines`: split at newlines, one trailing line terminator
tolerated, a carriage return before each newline stripped. -/
def rustLines (s : Str) : List Str :=
  let segs := s.foldr
    (fun c acc =>
      match acc with
      | seg :: rest => if c = '\n' then [] :: (seg :: rest) else (c :: seg) :: rest
      | [] => [[c]])
    [[]]
  let segs := match segs.reverse with
    | [] :: revRest => revRest.reverse
    | other => other.reverse
  segs.map (fun seg => match seg.reverse with
    | '\r' :: revRest => revRest.reverse
    | _ => seg)

/-- `resolver.rs::resolve_from_script_sync` (the blocking path): same
execution, but a failed JSON parse falls back to the newline-delimited,
trimmed, non-empty lines of stdout. -/
def resolve_from_script_sync (exec : Str → ExecOutput) (parseJson : Str → Option (List Str))
    (command : Str) (values : ValueMap) : Except Str (List Str) :=
  let substituted_command := substitute_variables command values
  let output := exec substituted_command
  if output.success = false then
    Except.error output.stderr
  else
    match parseJson output.stdout with
    | some options => Except.ok options
    | none =>
      Except.ok (((rustLines output.stdout).map strTrim).filter (fun s => s ≠ []))

/-! ## Widget state machines (`src/tui/widgets/*.rs`)

Key events are embedded structurally (`crossterm` key codes the widgets
inspect, plus the CONTROL modifier flag).  Rendering (`render`,
`list_state`) is display-only and omitted.  `FloatInput` works over
`f64`; the embedding is parametric in an ordered numeric type `F`
together with the parse (`str::parse::<f64>`) and display
(`f64::to_string`) boundary functions, so that its control flow is
captured exactly without floating-point semantics. -/

/-- `widgets/base.rs::WidgetState`. -/
inductive WidgetState where
  | Normal
  | Focused
  | Editing
  deriving DecidableEq, Repr

/-- The key codes inspected by the widgets and the controller. -/
inductive KeyCode where
  | enter
  | esc
  | char (c : Char)
  | backspace
  | left
  | right
  | up
  | down
  | other
  deriving DecidableEq, Repr

/-- A key event: code plus the CONTROL-modifier flag
(`SearchableDropdown` is the only widget that inspects modifiers). -/
structure KeyEvent where
  code : KeyCode
  ctrl : Bool
  deriving DecidableEq, Repr

/-- `widgets/base.rs::WidgetResult`, polymorphic in the carried value so
the numeric widgets can carry their own value type. -/
inductive WidgetResult (α : Type) where
  | Continue
  | Changed (v : α)
  | Confirmed (v : α)
  | Cancelled
  deriving DecidableEq, Repr

/-- The value a numeric input widget reports: the parsed number when the
buffer validates, otherwise the raw buffer string
(`FloatInput::get_value`). -/
inductive NumVal (F : Type) where
  | num (x : F)
  | str (s : Str)
  deriving DecidableEq, Repr

/-- `widgets/float_input.rs::FloatInput` (label kept for fidelity;
rendering state omitted). -/
structure FloatInput (F : Type) where
  buffer : Str
  cursor_pos : Nat
  state : WidgetState
  label : Str
  min : Option F
  max : Option F
  step : Option F

/-- The early-return test `if let Some(min) = min { num < min }` of the
numeric validators. -/
def belowDeclaredMin {F : Type} [LinearOrder F] (mno : Option F) (num : F) : Bool :=
  match mno with
  | some mn => decide (num < mn)
  | none => false

/-- The early-return test `if let Some(max) = max { num > max }` of the
numeric validators. -/
def aboveDeclaredMax {F : Type} [LinearOrder F] (mxo : Option F) (num : F) : Bool :=
  match mxo with
  | some mx => decide (mx < num)
  | none => false

namespace FloatInput

variable {F : Type} [LinearOrder F]

/-- `FloatInput::validate`: parse the buffer, reject below `min` or
above `max`. -/
def validate (parse : Str → Option F) (w : FloatInput F) : Option F :=
  (parse w.buffer).bind (fun num =>
    if belowDeclaredMin w.min num then none
    else if aboveDeclaredMax w.max num then none
    else some num)

/-- `FloatInput::get_value`. -/
def get_value (parse : Str → Option F) (w : FloatInput F) : NumVal F :=
  match w.validate parse with
  | some num => NumVal.num num
  | none => NumVal.str w.buffer

/-- `FloatInput::insert_char`: a digit anywhere, a minus sign at
position 0, a single decimal point. -/
def insert_char (w : FloatInput F) (c : Char) : FloatInput F :=
  if c.isDigit ∨ (c = '-' ∧ w.cursor_pos = 0) ∨ (c = '.' ∧ w.buffer.contains '.' = false) then
    { w with buffer := w.buffer.insertIdx w.cursor_pos c, cursor_pos := w.cursor_pos + 1 }
  else w

/-- `FloatInput::delete_char` (backspace). -/
def delete_char (w : FloatInput F) : FloatInput F :=
  if w.cursor_pos > 0 then
    { w with buffer := w.buffer.eraseIdx (w.cursor_pos - 1), cursor_pos := w.cursor_pos - 1 }
  else w

/-- `FloatInput::handle_key`, arm by arm.  `parse` embeds
`str::parse::<f64>` and `render` embeds `f64::to_string` (used by the
step arms). -/
def handle_key [Add F] [Sub F] (parse : Str → Option F) (render : F → Str)
    (w : FloatInput F) (key : KeyEvent) : FloatInput F × WidgetResult (NumVal F) :=
  if w.state ≠ WidgetState.Editing then (w, WidgetResult.Continue)
  else
    match key.code with
    | KeyCode.enter =>
      match w.validate parse with
      | some num => ({ w with state := WidgetState.Normal }, WidgetResult.Confirmed (NumVal.num num))
      | none => (w, WidgetResult.Continue)
    | KeyCode.esc => ({ w with state := WidgetState.Normal }, WidgetResult.Cancelled)
    | KeyCode.char c =>
      let w' := w.insert_char c
      (w', WidgetResult.Changed (w'.get_value parse))
    | KeyCode.backspace =>
      let w' := w.delete_char
      (w', WidgetResult.Changed (w'.get_value parse))
    | KeyCode.left =>
      ((if w.cursor_pos > 0 then { w with cursor_pos := w.cursor_pos - 1 } else w), WidgetResult.Continue)
    | KeyCode.right =>
      ((if w.cursor_pos < w.buffer.length then { w with cursor_pos := w.cursor_pos + 1 } else w), WidgetResult.Continue)
    | KeyCode.up =>
      match w.validate parse, w.step with
      | some current, some step =>
        let new_val := current + step
        if (match w.max with | none => true | some mx => decide (new_val ≤ mx)) then
          let buf := render new_val
          let w' := { w with buffer := buf, cursor_pos := buf.length }
          (w', WidgetResult.Changed (w'.get_value parse))
        else (w, WidgetResult.Continue)
      | _, _ => (w, WidgetResult.Continue)
    | KeyCode.down =>
      match w.validate parse, w.step with
      | some current, some step =>
        let new_val := current - step
        if (match w.min with | none => true | some mn => decide (mn ≤ new_val)) then
          let buf := render new_val
          let w' := { w with buffer := buf, cursor_pos := buf.length }
          (w', WidgetResult.Changed (w'.get_value parse))
        else (w, WidgetResult.Continue)
      | _, _ => (w, WidgetResult.Continue)
    | KeyCode.other => (w, WidgetResult.Continue)

/-- `FloatInput::activate`. -/
def activate (w : FloatInput F) : FloatInput F :=
  { w with state := WidgetState.Editing, cursor_pos := w.buffer.length }

end FloatInput

/-- Modelled from the spec: `src/tui/widgets/number_input.rs` is declared
in `widgets/mod.rs` and exercised by `tests/widgets.rs`, but its source
file is not under `src/`.  Spec section 4.2: same buffer mechanics as the
text widgets, restricted to digits and a single leading minus sign;
validation against declared min/max occurs at confirm time; confirming an
out-of-range or unparsable buffer returns `Continue` and leaves the user
in editing state; a valid confirm returns `Confirmed` with the parsed
numeric value. -/
structure NumberInput where
  buffer : Str
  cursor_pos : Nat
  state : WidgetState
  label : Str
  min : Option Int
  max : Option Int

namespace NumberInput

/-- Modelled from the spec: confirm-time validation, parse as i64 then
check declared bounds. -/
def validate (w : NumberInput) : Option Int :=
  (parseI64 w.buffer).bind (fun num =>
    if belowDeclaredMin w.min num then none
    else if aboveDeclaredMax w.max num then none
    else some num)

/-- Modelled from the spec: digits anywhere, a single leading minus. -/
def insert_char (w : NumberInput) (c : Char) : NumberInput :=
  if c.isDigit ∨ (c = '-' ∧ w.cursor_pos = 0 ∧ w.buffer.contains '-' = false) then
    { w with buffer := w.buffer.insertIdx w.cursor_pos c, cursor_pos := w.cursor_pos + 1 }
  else w

/-- Modelled from the spec: backspace. -/
def delete_char (w : NumberInput) : NumberInput :=
  if w.cursor_pos > 0 then
    { w with buffer := w.buffer.eraseIdx (w.cursor_pos - 1), cursor_pos := w.cursor_pos - 1 }
  else w

/-- Modelled from the spec: the confirm/cancel/edit key handling of the
number widget (Enter validates and either confirms with the parsed value
or continues editing; Escape cancels). -/
def handle_key (w : NumberInput) (key : KeyEvent) : NumberInput × WidgetResult (NumVal Int) :=
  if w.state ≠ WidgetState.Editing then (w, WidgetResult.Continue)
  else
    match key.code with
    | KeyCode.enter =>
      match w.validate with
      | some num => ({ w with state := WidgetState.Normal }, WidgetResult.Confirmed (NumVal.num num))
      | none => (w, WidgetResult.Continue)
    | KeyCode.esc => ({ w with state := WidgetState.Normal }, WidgetResult.Cancelled)
    | KeyCode.char c =>
      let w' := w.insert_char c
      (w', WidgetResult.Changed (match w'.validate with
        | some num => NumVal.num num
        | none => NumVal.str w'.buffer))
    | KeyCode.backspace =>
      let w' := w.delete_char
      (w', WidgetResult.Changed (match w'.validate with
        | some num => NumVal.num num
        | none => NumVal.str w'.buffer))
    | _ => (w, WidgetResult.Continue)

/-- Modelled from the spec: activation enters the editing state. -/
def activate (w : NumberInput) : NumberInput :=
  { w with state := WidgetState.Editing, cursor_pos := w.buffer.length }

end NumberInput

/-- `widgets/dropdown.rs::Dropdown` (rendering-only `list_state`
omitted). -/
structure Dropdown where
  options : List Str
  selected_index : Nat
  state : WidgetState
  label : Str
  deriving DecidableEq, Repr

namespace Dropdown

/-- `Dropdown::new`: highlight the option equal to the initial value, or
index 0. -/
def new (label : Str) (options : List Str) (initial_value : Option Str) : Dropdown :=
  let selected_index :=
    match initial_value with
    | some v => (options.findIdx? (fun o => o = v)).getD 0
    | none => 0
  ⟨options, selected_index, WidgetState.Normal, label⟩

/-- `Dropdown::get_current_value`: the highlighted option, or the empty
string when the index is out of range (in particular for an empty
list). -/
def get_current_value (w : Dropdown) : Str :=
  w.options.getD w.selected_index []

/-- `Dropdown::select_next` (wraparound; no-op on an empty list). -/
def select_next (w : Dropdown) : Dropdown :=
  if w.options = [] then w
  else { w with selected_index := (w.selected_index + 1) % w.options.length }

/-- `Dropdown::select_previous`. -/
def select_previous (w : Dropdown) : Dropdown :=
  if w.options = [] then w
  else { w with selected_index := if w.selected_index = 0 then w.options.length - 1 else w.selected_index - 1 }

/-- `Dropdown::handle_key`. -/
def handle_key (w : Dropdown) (key : KeyEvent) : Dropdown × WidgetResult JValue :=
  if w.state ≠ WidgetState.Editing then (w, WidgetResult.Continue)
  else
    match key.code with
    | KeyCode.enter =>
      ({ w with state := WidgetState.Normal },
        WidgetResult.Confirmed (JValue.vstr w.get_current_value))
    | KeyCode.esc => ({ w with state := WidgetState.Normal }, WidgetResult.Cancelled)
    | KeyCode.down => (w.select_next, WidgetResult.Continue)
    | KeyCode.up => (w.select_previous, WidgetResult.Continue)
    | KeyCode.char c =>
      if c = 'j' then (w.select_next, WidgetResult.Continue)
      else if c = 'k' then (w.select_previous, WidgetResult.Continue)
      else (w, WidgetResult.Continue)
    | _ => (w, WidgetResult.Continue)

/-- `Dropdown::activate`. -/
def activate (w : Dropdown) : Dropdown :=
  { w with state := WidgetState.Editing }

end Dropdown

/-- Case-insensitive lowering of a string (`str::to_lowercase`; the
engine's options are ASCII-ranged, `Char.toLower` matches). -/
def strLower (s : Str) : Str := s.map Char.toLower

/-- Rust `str::contains(&str)`: substring test. -/
def hasSubstr (s sub : Str) : Bool := (splitOnce s sub).isSome

/-- `widgets/searchable_dropdown.rs::SearchableDropdown`. -/
structure SearchableDropdown where
  all_options : List Str
  filtered_options : List Str
  selected_index : Nat
  search_buffer : Str
  state : WidgetState
  label : Str
  current_value : Str
  deriving DecidableEq, Repr

namespace SearchableDropdown

/-- `SearchableDropdown::new`. -/
def new (label : Str) (options : List Str) (initial_value : Option Str) : SearchableDropdown :=
  let current_value := initial_value.getD ((options.head?).getD [])
  ⟨options, options, 0, [], WidgetState.Normal, label, current_value⟩

/-- `SearchableDropdown::update_filter`: case-insensitive substring
match, then re-clamp the selection index. -/
def update_filter (w : SearchableDropdown) : SearchableDropdown :=
  let search_lower := strLower w.search_buffer
  let filtered := w.all_options.filter (fun opt => hasSubstr (strLower opt) search_lower)
  let idx := if filtered = [] then 0 else min w.selected_index (filtered.length - 1)
  { w with filtered_options := filtered, selected_index := idx }

/-- `SearchableDropdown::select_next`. -/
def select_next (w : SearchableDropdown) : SearchableDropdown :=
  if w.filtered_options = [] then w
  else { w with selected_index := (w.selected_index + 1) % w.filtered_options.length }

/-- `SearchableDropdown::select_previous`. -/
def select_previous (w : SearchableDropdown) : SearchableDropdown :=
  if w.filtered_options = [] then w
  else { w with selected_index := if w.selected_index = 0 then w.filtered_options.length - 1 else w.selected_index - 1 }

/-- `SearchableDropdown::handle_key`: Enter confirms the highlighted
filtered option only when the filtered list is non-empty; characters
(other than unmodified `j`/`k` navigation) extend the search buffer. -/
def handle_key (w : SearchableDropdown) (key : KeyEvent) : SearchableDropdown × WidgetResult JValue :=
  if w.state ≠ WidgetState.Editing then (w, WidgetResult.Continue)
  else
    match key.code with
    | KeyCode.enter =>
      if w.filtered_options ≠ [] then
        let w' := { w with current_value := w.filtered_options.getD w.selected_index [],
                           state := WidgetState.Normal }
        (w', WidgetResult.Confirmed (JValue.vstr w'.current_value))
      else (w, WidgetResult.Continue)
    | KeyCode.esc => ({ w with state := WidgetState.Normal }, WidgetResult.Cancelled)
    | KeyCode.down =>
      if key.ctrl = false then (w.select_next, WidgetResult.Continue) else (w, WidgetResult.Continue)
    | KeyCode.up =>
      if key.ctrl = false then (w.select_previous, WidgetResult.Continue) else (w, WidgetResult.Continue)
    | KeyCode.char c =>
      if c = 'j' ∧ key.ctrl = false then (w.select_next, WidgetResult.Continue)
      else if c = 'k' ∧ key.ctrl = false then (w.select_previous, WidgetResult.Continue)
      else
        let w' := update_filter { w with search_buffer := w.search_buffer ++ [c] }
        (w', WidgetResult.Continue)
    | KeyCode.backspace =>
      let w' := update_filter { w with search_buffer := w.search_buffer.dropLast }
      (w', WidgetResult.Continue)
    | _ => (w, WidgetResult.Continue)

/-- `SearchableDropdown::activate`. -/
def activate (w : SearchableDropdown) : SearchableDropdown :=
  { w with state := WidgetState.Editing, search_buffer := [],
           filtered_options := w.all_options, selected_index := 0 }

end SearchableDropdown

/-! ## App controller (`src/tui/app.rs`)

The controller state is embedded with the fields the edit-commit path
reads and writes.  The active widget map (`HashMap<String, Box<dyn
Widget>>`) is embedded as the list of keys that currently own a widget
instance: the commit path only ever tests membership, removes, and
inserts.  The dynamic widget's `handle_key` result is a parameter of
`handle_edit_mode`.  Side effects at the persistence and listener
boundaries are reified as an ordered event trace. -/

/-- Association-list insert with replace (`HashMap::insert` on
`self.values`). -/
def insertAssoc (m : List (Str × JValue)) (k : Str) (v : JValue) : List (Str × JValue) :=
  match m with
  | [] => [(k, v)]
  | (k', v') :: rest => if k' = k then (k, v) :: rest else (k', v') :: insertAssoc rest k v

/-- Association-list lookup (`HashMap::get` on `self.values`). -/
def lookupAssoc (m : List (Str × JValue)) (k : Str) : Option JValue :=
  match m with
  | [] => none
  | (k', v') :: rest => if k' = k then some v' else lookupAssoc rest k

/-- The observable boundary effects of the commit path, in order: a
persistence attempt (`save_config`, serializing the entire current value
map, succeeding or failing), and each registered change listener invoked
with the qualified key and new value. -/
inductive AppEvent where
  | persisted (values : List (Str × JValue)) (ok : Bool)
  | listener (idx : Nat) (key : Str) (value : JValue)
  deriving DecidableEq, Repr

/-- The slice of `SchemaTUI` state the edit-commit path touches. -/
structure AppState where
  values : List (Str × JValue)
  has_config_path : Bool
  edit_mode : Bool
  active_field : Option Str
  active_widgets : List Str
  num_handlers : Nat
  message : Option Str
  deriving DecidableEq, Repr

/-- `app.rs::SchemaTUI::fire_change`: insert the value into the map,
attempt `save_config` (only when a config path is set; a failure is
printed and otherwise ignored), then invoke every change handler in
registration order.  `save_ok` is the outcome of the external write. -/
def fire_change (save_ok : Bool) (s : AppState) (key : Str) (value : JValue) :
    AppState × List AppEvent :=
  let s1 := { s with values := insertAssoc s.values key value }
  let saveEvents := if s1.has_config_path then [AppEvent.persisted s1.values save_ok] else []
  (s1, saveEvents ++ (List.range s1.num_handlers).map (fun i => AppEvent.listener i key value))

/-- `app.rs::SchemaTUI::handle_edit_mode`, with the active widget's
`handle_key` result as input: `Confirmed` fires the change, leaves edit
mode, removes the widget instance and sets a status message; `Cancelled`
leaves edit mode without touching values or widgets; `Changed` fires the
change only; `Continue` does nothing. -/
def handle_edit_mode (save_ok : Bool) (s : AppState) (widget_result : WidgetResult JValue) :
    AppState × List AppEvent :=
  match s.active_field with
  | none => (s, [])
  | some field_key =>
    if field_key ∈ s.active_widgets then
      match widget_result with
      | WidgetResult.Confirmed value =>
        let r := fire_change save_ok s field_key value
        ({ r.1 with edit_mode := false, active_field := none,
                    active_widgets := r.1.active_widgets.erase field_key,
                    message := some ("Saved ".toList ++ field_key) }, r.2)
      | WidgetResult.Cancelled =>
        ({ s with edit_mode := false, active_field := none,
                  message := some "Cancelled".toList }, [])
      | WidgetResult.Changed value => fire_change save_ok s field_key value
      | WidgetResult.Continue => (s, [])
    else (s, [])

/-! ## Enum widget construction (`app.rs::build_widget_for_field`,
`FieldType::Enum` arm)

The resolver calls the controller makes for an Enum source
(`resolve_from_provider`, `resolve_from_script_sync`,
`resolve_from_file_list`) are I/O and are abstracted as an oracle of
their outcomes; the controller's own behaviour — mapping every `Err`
outcome to an empty option list and still constructing the widget — is
embedded exactly. -/

/-- `schema/types.rs::OptionSource`. -/
inductive OptionSource where
  | Static (values : List Str)
  | Script (command : Str) (cache_duration : Option Nat) (depends_on : List Str)
  | Function (name : Str)
  | Provider (provider : Str)
  | FileList (directory : Str) (pattern : Str) (extract : Option Str)

/-- `schema/types.rs::UIWidget`. -/
inductive UIWidget where
  | TextInput
  | NumberInputW
  | Toggle
  | DropdownW
  | DropdownSearchable
  | FilePicker
  deriving DecidableEq, Repr

/-- Outcomes of the resolver methods the `Enum` arm calls (I/O
boundary). -/
structure ResolverOracle where
  provider : Str → Except Str (List Str)
  script_sync : Str → Except Str (List Str)
  file_list : Str → Str → Option Str → Except Str (List Str)

/-- The option list the `Enum` arm of `build_widget_for_field` computes:
each failing resolution degrades to `vec![]`. -/
def enum_widget_options (r : ResolverOracle) : OptionSource → List Str
  | OptionSource.Static values => values
  | OptionSource.Function name =>
    match r.provider name with
    | Except.ok opts => opts
    | Except.error _ => []
  | OptionSource.Provider provider =>
    match r.provider provider with
    | Except.ok opts => opts
    | Except.error _ => []
  | OptionSource.Script command _ _ =>
    match r.script_sync command with
    | Except.ok opts => opts
    | Except.error _ => []
  | OptionSource.FileList directory pattern extract =>
    match r.file_list directory pattern extract with
    | Except.ok opts => opts
    | Except.error _ => []

/-- The raw outcome of the resolver call the `Enum` arm makes for a
given source (before the controller's error handling): `Static` is the
literal list, the other kinds consult the oracle. -/
def enum_resolution_result (r : ResolverOracle) : OptionSource → Except Str (List Str)
  | OptionSource.Static values => Except.ok values
  | OptionSource.Function name => r.provider name
  | OptionSource.Provider provider => r.provider provider
  | OptionSource.Script command _ _ => r.script_sync command
  | OptionSource.FileList directory pattern extract => r.file_list directory pattern extract

/-- `serde_json::Value::as_str`. -/
def JValue.as_str : JValue → Option Str
  | JValue.vstr s => some s
  | _ => none

/-- The widget the `Enum` arm constructs. -/
inductive BuiltWidget where
  | dropdown (d : Dropdown)
  | searchable (d : SearchableDropdown)
  deriving DecidableEq, Repr

/-- `app.rs::build_widget_for_field`, `FieldType::Enum` arm: resolve the
options (errors degrade to an empty list), seed the initial value from
the value map or the schema default, pick the searchable widget only for
`UIWidget::DropdownSearchable`.  The Rust function returns `Result` but
has no error path; the embedding is total. -/
def build_widget_for_field_enum (r : ResolverOracle) (values : List (Str × JValue))
    (field_key : Str) (label : Str) (options_source : OptionSource)
    (default : Option Str) (ui_widget : UIWidget) : BuiltWidget :=
  let options := enum_widget_options r options_source
  let initial := ((lookupAssoc values field_key).bind JValue.as_str).orElse (fun _ => default)
  match ui_widget with
  | UIWidget.DropdownSearchable => BuiltWidget.searchable (SearchableDropdown.new label options initial)
  | _ => BuiltWidget.dropdown (Dropdown.new label options initial)

/-- The option list of a built widget. -/
def BuiltWidget.optionList : BuiltWidget → List Str
  | BuiltWidget.dropdown d => d.options
  | BuiltWidget.searchable d => d.all_options

/-- The activation step of `activate_current_field` after the widget is
built: register the widget instance under the field key and, for the
edit-capable widget kinds (among them both dropdown kinds), enter edit
mode with the field marked active. -/
def activate_built_widget (s : AppState) (field_key : Str) (ui_widget : UIWidget) : AppState :=
  let s1 := if field_key ∈ s.active_widgets then s
            else { s with active_widgets := field_key :: s.active_widgets }
  match ui_widget with
  | UIWidget.TextInput | UIWidget.NumberInputW | UIWidget.DropdownW | UIWidget.DropdownSearchable =>
    { s1 with edit_mode := true, active_field := some field_key }
  | _ => s1

/-! ## Claims -/

/-- The shared confirm-time validation shape of the numeric widgets:
parse, reject below a declared min, reject above a declared max. -/
theorem validate_bounds_iff {F : Type} [LinearOrder F] (pr : Option F) (mno mxo : Option F)
    (num : F) :
    (pr.bind (fun n =>
      if belowDeclaredMin mno n then none
      else if aboveDeclaredMax mxo n then none
      else some n)) = some num
      ↔ pr = some num
          ∧ (∀ mn, mno = some mn → mn ≤ num)
          ∧ (∀ mx, mxo = some mx → num ≤ mx) := by
  cases pr with
  | none => simp
  | some n =>
    simp only [Option.some_bind, Option.some.injEq]
    have hlow : ∀ mn, mno = some mn → ¬ n < mn → belowDeclaredMin mno n = false := by
      rintro mn rfl h; simp [belowDeclaredMin, h]
    have hhigh : ∀ mx, mxo = some mx → ¬ mx < n → aboveDeclaredMax mxo n = false := by
      rintro mx rfl h; simp [aboveDeclaredMax, h]
    cases mno with
    | none =>
      cases mxo with
      | none => simp [belowDeclaredMin, aboveDeclaredMax]
      | some mx =>
        rcases lt_or_le mx n with h | h
        · simp only [belowDeclaredMin, aboveDeclaredMax, decide_eq_true_eq,
            Bool.false_eq_true, if_false, if_pos h]
          constructor
          · intro hc; exact absurd hc (by simp)
          · rintro ⟨rfl, -, hmx⟩
            exact absurd (hmx mx rfl) (not_le_of_lt h)
        · simp only [belowDeclaredMin, aboveDeclaredMax, decide_eq_true_eq,
            Bool.false_eq_true, if_false, if_neg (not_lt_of_le h), Option.some.injEq]
          constructor
          · rintro rfl
            exact ⟨rfl, by simp, by rintro mx' rfl; exact h⟩
          · rintro ⟨rfl, -, -⟩; rfl
    | some mn =>
      rcases lt_or_le n mn with h1 | h1
      · simp only [belowDeclaredMin, decide_eq_true_eq, if_pos h1]
        constructor
        · intro hc; exact absurd hc (by simp)
        · rintro ⟨rfl, hmn, -⟩
          exact absurd (hmn mn rfl) (not_le_of_lt h1)
      · rw [hlow mn rfl (not_lt_of_le h1)]
        simp only [Bool.false_eq_true, if_false]
        cases mxo with
        | none =>
          simp only [aboveDeclaredMax, Bool.false_eq_true, if_false, Option.some.injEq]
          constructor
          · rintro rfl
            exact ⟨rfl, by rintro mn' rfl; exact h1, by simp⟩
          · rintro ⟨rfl, -, -⟩; rfl
        | some mx =>
          rcases lt_or_le mx n with h2 | h2
          · simp only [aboveDeclaredMax, decide_eq_true_eq, if_pos h2]
            constructor
            · intro hc; exact absurd hc (by simp)
            · rintro ⟨rfl, -, hmx⟩
              exact absurd (hmx mx rfl) (not_le_of_lt h2)
          · rw [hhigh mx rfl (not_lt_of_le h2)]
            simp only [Bool.false_eq_true, if_false, Option.some.injEq]
            constructor
            · rintro rfl
              exact ⟨rfl, by rintro mn' rfl; exact h1,
                by rintro mx' rfl; exact h2⟩
            · rintro ⟨rfl, -, -⟩; rfl

/-- C10: a plain `Dropdown` constructed with an empty option list
confirms the empty string on Enter in the editing state, whereas a
`SearchableDropdown` whose filtered list is empty returns `Continue` on
Enter, refusing to confirm and leaving the widget unchanged. -/
theorem dropdown_empty_confirm_searchable_refuses :
    ∀ (label : Str) (init : Option Str) (ctrl : Bool) (sd : SearchableDropdown),
      sd.state = WidgetState.Editing → sd.filtered_options = [] →
      ((Dropdown.new label [] init).activate.handle_key ⟨KeyCode.enter, ctrl⟩).2
          = WidgetResult.Confirmed (JValue.vstr [])
        ∧ (sd.handle_key ⟨KeyCode.enter, ctrl⟩).2 = WidgetResult.Continue
        ∧ (sd.handle_key ⟨KeyCode.enter, ctrl⟩).1 = sd := by
  intro label init ctrl sd hstate hempty
  refine ⟨?_, ?_, ?_⟩
  · cases init <;>
      simp [Dropdown.new, Dropdown.activate, Dropdown.handle_key, Dropdown.get_current_value]
  · simp [SearchableDropdown.handle_key, hstate, hempty]
  · simp [SearchableDropdown.handle_key, hstate, hempty]

/-- C10 witness: concrete empty dropdowns. -/
theorem dropdown_empty_confirm_searchable_refuses_witness :
    ((Dropdown.new [] [] none).activate.handle_key ⟨KeyCode.enter, false⟩).2
        = WidgetResult.Confirmed (JValue.vstr [])
      ∧ (((SearchableDropdown.new [] [] none).activate).handle_key ⟨KeyCode.enter, false⟩).2
        = WidgetResult.Continue
      ∧ (((SearchableDropdown.new [] [] none).activate).handle_key ⟨KeyCode.enter, false⟩).1
        = (SearchableDropdown.new [] [] none).activate :=
  dropdown_empty_confirm_searchable_refuses [] none false
    ((SearchableDropdown.new [] [] none).activate) rfl rfl

/-- C5: for `NumberInput` and `FloatInput` in the editing state,
pressing Enter with a buffer that fails validation (unparsable, or the
parsed number is below a declared minimum or above a declared maximum)
returns `Continue` and leaves the widget — hence the editing state —
unchanged; pressing Enter with a buffer whose parse passes the declared
bounds returns `Confirmed` carrying the parsed numeric value and moves
the widget to the `Normal` state.  The first conjunct of each half
characterises validation as exactly "parses, and within every declared
bound". -/
theorem numeric_confirm_validation {F : Type} [LinearOrder F] [Add F] [Sub F]
    (parse : Str → Option F) (render : F → Str) :
    (∀ (w : FloatInput F) (num : F),
        (w.validate parse = some num ↔
          parse w.buffer = some num
            ∧ (∀ mn, w.min = some mn → mn ≤ num)
            ∧ (∀ mx, w.max = some mx → num ≤ mx)))
      ∧ (∀ (w : FloatInput F) (ctrl : Bool), w.state = WidgetState.Editing →
          (w.validate parse = none →
            w.handle_key parse render ⟨KeyCode.enter, ctrl⟩ = (w, WidgetResult.Continue))
          ∧ (∀ num, w.validate parse = some num →
            w.handle_key parse render ⟨KeyCode.enter, ctrl⟩
              = ({ w with state := WidgetState.Normal }, WidgetResult.Confirmed (NumVal.num num))))
      ∧ (∀ (w : NumberInput) (num : Int),
          (w.validate = some num ↔
            parseI64 w.buffer = some num
              ∧ (∀ mn, w.min = some mn → mn ≤ num)
              ∧ (∀ mx, w.max = some mx → num ≤ mx)))
      ∧ (∀ (w : NumberInput) (ctrl : Bool), w.state = WidgetState.Editing →
          (w.validate = none →
            w.handle_key ⟨KeyCode.enter, ctrl⟩ = (w, WidgetResult.Continue))
          ∧ (∀ num, w.validate = some num →
            w.handle_key ⟨KeyCode.enter, ctrl⟩
              = ({ w with state := WidgetState.Normal }, WidgetResult.Confirmed (NumVal.num num)))) := by
  refine ⟨?_, ?_, ?_, ?_⟩
  · intro w num
    unfold FloatInput.validate
    exact validate_bounds_iff (parse w.buffer) w.min w.max num
  · intro w ctrl hstate
    constructor
    · intro hv
      simp [FloatInput.handle_key, hstate, hv]
    · intro num hv
      simp [FloatInput.handle_key, hstate, hv]
  · intro w num
    unfold NumberInput.validate
    exact validate_bounds_iff (parseI64 w.buffer) w.min w.max num
  · intro w ctrl hstate
    constructor
    · intro hv
      simp [NumberInput.handle_key, hstate, hv]
    · intro num hv
      simp [NumberInput.handle_key, hstate, hv]

/-- C5 witness: a concrete in-range confirm, an out-of-range refusal and
an unparsable refusal for each numeric widget (the parametric numeric
type instantiated at `Int` with the integer parser). -/
theorem numeric_confirm_validation_witness :
    ((⟨['7'], 1, WidgetState.Editing, [], some 0, some 10, none⟩ : FloatInput Int).handle_key
        parseI64 intToStr ⟨KeyCode.enter, false⟩
      = ({ (⟨['7'], 1, WidgetState.Editing, [], some 0, some 10, none⟩ : FloatInput Int) with
            state := WidgetState.Normal }, WidgetResult.Confirmed (NumVal.num 7)))
    ∧ ((⟨['5', '0'], 2, WidgetState.Editing, [], some 0, some 10, none⟩ : FloatInput Int).handle_key
        parseI64 intToStr ⟨KeyCode.enter, false⟩
      = ((⟨['5', '0'], 2, WidgetState.Editing, [], some 0, some 10, none⟩ : FloatInput Int),
          WidgetResult.Continue))
    ∧ ((⟨['4', '2'], 2, WidgetState.Editing, [], some 0, some 100⟩ : NumberInput).handle_key
        ⟨KeyCode.enter, false⟩
      = ({ (⟨['4', '2'], 2, WidgetState.Editing, [], some 0, some 100⟩ : NumberInput) with
            state := WidgetState.Normal }, WidgetResult.Confirmed (NumVal.num 42)))
    ∧ ((⟨['-', 'x'], 2, WidgetState.Editing, [], none, none⟩ : NumberInput).handle_key
        ⟨KeyCode.enter, false⟩
      = ((⟨['-', 'x'], 2, WidgetState.Editing, [], none, none⟩ : NumberInput),
          WidgetResult.Continue)) := by
  refine ⟨?_, ?_, ?_, ?_⟩
  · exact ((numeric_confirm_validation parseI64 intToStr).2.1 _ false rfl).2 7 (by decide)
  · exact ((numeric_confirm_validation parseI64 intToStr).2.1 _ false rfl).1 (by decide)
  · exact ((numeric_confirm_validation parseI64 intToStr).2.2.2 _ false rfl).2 42 (by decide)
  · exact ((numeric_confirm_validation parseI64 intToStr).2.2.2 _ false rfl).1 (by decide)

/-- C9: when the option-source resolution of an Enum field fails, the
widget is still constructed, its option list is empty, and the
activation step still registers the widget and enters edit mode for both
dropdown widget kinds — the failure never aborts activation. -/
theorem enum_resolution_failure_degrades (r : ResolverOracle) (values : List (Str × JValue))
    (field_key label : Str) (source : OptionSource) (default : Option Str)
    (ui : UIWidget) (s : AppState) (msg : Str)
    (herr : enum_resolution_result r source = Except.error msg) :
    (build_widget_for_field_enum r values field_key label source default ui).optionList = []
      ∧ (ui = UIWidget.DropdownW ∨ ui = UIWidget.DropdownSearchable →
          (activate_built_widget s field_key ui).edit_mode = true
            ∧ (activate_built_widget s field_key ui).active_field = some field_key
            ∧ field_key ∈ (activate_built_widget s field_key ui).active_widgets) := by
  have hopts : enum_widget_options r source = [] := by
    cases source with
    | Static vs => exact absurd herr (by simp [enum_resolution_result])
    | Function name =>
      simp only [enum_resolution_result] at herr
      simp [enum_widget_options, herr]
    | Provider p =>
      simp only [enum_resolution_result] at herr
      simp [enum_widget_options, herr]
    | Script c d dep =>
      simp only [enum_resolution_result] at herr
      simp [enum_widget_options, herr]
    | FileList d p e =>
      simp only [enum_resolution_result] at herr
      simp [enum_widget_options, herr]
  constructor
  · cases ui <;>
      simp [build_widget_for_field_enum, hopts, BuiltWidget.optionList,
        Dropdown.new, SearchableDropdown.new]
  · rintro (rfl | rfl) <;>
      · refine ⟨?_, ?_, ?_⟩ <;>
          by_cases hmem : field_key ∈ s.active_widgets <;>
            simp [activate_built_widget, hmem]

/-- C9 witness: a provider-backed Enum source whose provider is
unregistered. -/
theorem enum_resolution_failure_degrades_witness :
    (build_widget_for_field_enum
        ⟨fun _ => Except.error ['e'], fun _ => Except.error ['e'], fun _ _ _ => Except.error ['e']⟩
        [] ['k'] ['L'] (OptionSource.Provider ['p']) none UIWidget.DropdownW).optionList = []
      ∧ ((activate_built_widget ⟨[], true, false, none, [], 0, none⟩ ['k'] UIWidget.DropdownW).edit_mode = true
          ∧ (activate_built_widget ⟨[], true, false, none, [], 0, none⟩ ['k'] UIWidget.DropdownW).active_field = some ['k']
          ∧ ['k'] ∈ (activate_built_widget ⟨[], true, false, none, [], 0, none⟩ ['k'] UIWidget.DropdownW).active_widgets) := by
  have h := enum_resolution_failure_degrades
    ⟨fun _ => Except.error ['e'], fun _ => Except.error ['e'], fun _ _ _ => Except.error ['e']⟩
    [] ['k'] ['L'] (OptionSource.Provider ['p']) none UIWidget.DropdownW
    ⟨[], true, false, none, [], 0, none⟩ ['e'] rfl
  exact ⟨h.1, h.2 (Or.inl rfl)⟩

/-- C7 counterexample: on `Cancelled` the controller does *not* discard
the active widget instance — the widget key is still present in the
widget map afterwards (the value map is indeed untouched). -/
theorem cancelled_keeps_widget_counterexample :
    ['a'] ∈ (handle_edit_mode true
        ⟨[(['a'], JValue.vbool true)], true, true, some ['a'], [['a']], 1, none⟩
        WidgetResult.Cancelled).1.active_widgets
      ∧ (handle_edit_mode true
          ⟨[(['a'], JValue.vbool true)], true, true, some ['a'], [['a']], 1, none⟩
          WidgetResult.Cancelled).1.values
        = [(['a'], JValue.vbool true)] := by
  constructor
  · decide
  · rfl

/-- C7 amended: on `Cancelled` the controller exits edit mode, clears
the active-field marker and posts a status message; the widget instance
is *retained* in the widget map (the next activation reuses it after
reseeding via `set_value`), and the value map is left completely
unchanged; no persistence or listener effect occurs. -/
theorem cancelled_leaves_values_untouched (save_ok : Bool) (s : AppState) (field_key : Str)
    (h1 : s.active_field = some field_key) (h2 : field_key ∈ s.active_widgets) :
    handle_edit_mode save_ok s WidgetResult.Cancelled
      = ({ s with edit_mode := false, active_field := none,
                  message := some "Cancelled".toList }, []) := by
  simp [handle_edit_mode, h1, h2]

/-- C7 amended witness. -/
theorem cancelled_leaves_values_untouched_witness :
    handle_edit_mode true
        ⟨[(['a'], JValue.vbool true)], true, true, some ['a'], [['a']], 1, none⟩
        WidgetResult.Cancelled
      = (⟨[(['a'], JValue.vbool true)], true, false, none, [['a']], 1,
          some "Cancelled".toList⟩, []) :=
  cancelled_leaves_values_untouched true
    ⟨[(['a'], JValue.vbool true)], true, true, some ['a'], [['a']], 1, none⟩
    ['a'] rfl (by decide)

/-- C2 counterexample: on `Changed` the controller *does* attempt
persistence: with a config path set, the event trace of a `Changed`
commit contains a persistence attempt (here: of the whole updated value
map), contradicting the claim that live edits are not persisted. -/
theorem changed_persists_counterexample :
    AppEvent.persisted [(['a'], JValue.vstr ['x'])] true
      ∈ (handle_edit_mode true
          ⟨[], true, true, some ['a'], [['a']], 1, none⟩
          (WidgetResult.Changed (JValue.vstr ['x']))).2 := by
  decide

/-- C2 amended: on `Changed` the controller merges the new value into
the value map and invokes every registered change listener in
registration order, does not discard the widget instance and stays in
edit mode — but it also persists the (updated) value map to the config
store whenever a config path is configured, exactly as a `Confirmed`
commit does. -/
theorem changed_merges_fires_and_persists (save_ok : Bool) (s : AppState) (field_key : Str)
    (value : JValue) (h1 : s.active_field = some field_key) (h2 : field_key ∈ s.active_widgets) :
    handle_edit_mode save_ok s (WidgetResult.Changed value)
      = ({ s with values := insertAssoc s.values field_key value },
          (if s.has_config_path then
            [AppEvent.persisted (insertAssoc s.values field_key value) save_ok]
          else [])
            ++ (List.range s.num_handlers).map (fun i => AppEvent.listener i field_key value)) := by
  simp [handle_edit_mode, h1, h2, fire_change]

/-- C2 amended witness. -/
theorem changed_merges_fires_and_persists_witness :
    handle_edit_mode true ⟨[], true, true, some ['a'], [['a']], 1, none⟩
        (WidgetResult.Changed (JValue.vstr ['x']))
      = (⟨[(['a'], JValue.vstr ['x'])], true, true, some ['a'], [['a']], 1, none⟩,
          [AppEvent.persisted [(['a'], JValue.vstr ['x'])] true,
            AppEvent.listener 0 ['a'] (JValue.vstr ['x'])]) := by
  have h := changed_merges_fires_and_persists true
    ⟨[], true, true, some ['a'], [['a']], 1, none⟩ ['a'] (JValue.vstr ['x']) rfl (by decide)
  simpa [insertAssoc] using h

/-- Inserting into the value map makes the key map to the new value. -/
theorem lookupAssoc_insertAssoc (m : List (Str × JValue)) (k : Str) (v : JValue) :
    lookupAssoc (insertAssoc m k v) k = some v := by
  induction m with
  | nil => simp [insertAssoc, lookupAssoc]
  | cons p rest ih =>
    obtain ⟨k', v'⟩ := p
    by_cases h : k' = k
    · subst h
      simp [insertAssoc, lookupAssoc]
    · simp [insertAssoc, lookupAssoc, h, ih]

/-- C8: on `Confirmed` with a config path set, the controller merges the
value into the value map, leaves edit mode, discards the just-used
widget instance, and produces exactly one persistence attempt of the
*entire updated* value map followed by every registered change listener
invoked with the qualified key and new value in registration order.
The statement holds for both persistence outcomes (`save_ok` is
universally quantified), and the last conjunct records that even then
the new value is present in the in-memory map. -/
theorem confirmed_commit_effects (save_ok : Bool) (s : AppState) (field_key : Str)
    (value : JValue) (h1 : s.active_field = some field_key)
    (h2 : field_key ∈ s.active_widgets) (h3 : s.has_config_path = true) :
    handle_edit_mode save_ok s (WidgetResult.Confirmed value)
      = ({ s with values := insertAssoc s.values field_key value,
                  edit_mode := false, active_field := none,
                  active_widgets := s.active_widgets.erase field_key,
                  message := some ("Saved ".toList ++ field_key) },
          AppEvent.persisted (insertAssoc s.values field_key value) save_ok
            :: (List.range s.num_handlers).map (fun i => AppEvent.listener i field_key value))
      ∧ lookupAssoc (handle_edit_mode save_ok s (WidgetResult.Confirmed value)).1.values field_key
        = some value := by
  have hmain : handle_edit_mode save_ok s (WidgetResult.Confirmed value)
      = ({ s with values := insertAssoc s.values field_key value,
                  edit_mode := false, active_field := none,
                  active_widgets := s.active_widgets.erase field_key,
                  message := some ("Saved ".toList ++ field_key) },
          AppEvent.persisted (insertAssoc s.values field_key value) save_ok
            :: (List.range s.num_handlers).map (fun i => AppEvent.listener i field_key value)) := by
    simp [handle_edit_mode, h1, h2, fire_change, h3]
  refine ⟨hmain, ?_⟩
  rw [hmain]
  exact lookupAssoc_insertAssoc s.values field_key value

/-- C8 witness: a concrete commit whose persistence *fails*
(`save_ok = false`): the value is still merged, the widget discarded,
and the listener still invoked after the failed persistence attempt. -/
theorem confirmed_commit_effects_witness :
    handle_edit_mode false ⟨[], true, true, some ['a'], [['a']], 1, none⟩
        (WidgetResult.Confirmed (JValue.vint 3))
      = (⟨[(['a'], JValue.vint 3)], true, false, none, [], 1,
          some ("Saved ".toList ++ ['a'])⟩,
          [AppEvent.persisted [(['a'], JValue.vint 3)] false,
            AppEvent.listener 0 ['a'] (JValue.vint 3)])
      ∧ lookupAssoc (handle_edit_mode false ⟨[], true, true, some ['a'], [['a']], 1, none⟩
          (WidgetResult.Confirmed (JValue.vint 3))).1.values ['a'] = some (JValue.vint 3) := by
  have h := confirmed_commit_effects false ⟨[], true, true, some ['a'], [['a']], 1, none⟩
    ['a'] (JValue.vint 3) rfl (by decide) rfl
  refine ⟨?_, h.2⟩
  have h1 := h.1
  simpa [insertAssoc, List.erase] using h1

/-- C6 counterexample: for `k != 5` with `k` stored as the integer `5`,
the spec's grammar semantics compares the integers (`5 ≠ 5` is false, so
the section should be hidden), but `evaluate_condition` has no integer
arm under `!=` and falls open to `true`. -/
theorem condition_neq_integer_counterexample :
    evaluate_condition ['k', ' ', '!', '=', ' ', '5']
        (fun s => if s = ['k'] then some (JValue.vint 5) else none) = true
      ∧ specEvalCondition ['k', ' ', '!', '=', ' ', '5']
        (fun s => if s = ['k'] then some (JValue.vint 5) else none) = false := by
  constructor <;> decide

/-- C6 amended: `evaluate_condition` implements the grammar
`<key> == <literal>` for boolean, string and integer stored values and
`<key> != <literal>` for boolean and string stored values, with
fail-open behaviour (result `true`) when the key is absent, the literal
is incompatible with the stored type, or — deviating from the claim —
whenever `!=` is applied to an integer-typed stored value. -/
theorem condition_grammar_amended (values : ValueMap) :
    (∀ cond fp vp b, splitOnce (strTrim cond) ['=', '='] = some (fp, vp) →
        values (strTrim fp) = some (JValue.vbool b) →
        evaluate_condition cond values
          = (if strTrim vp = ['t', 'r', 'u', 'e'] then b
             else if strTrim vp = ['f', 'a', 'l', 's', 'e'] then !b else true))
    ∧ (∀ cond fp vp s, splitOnce (strTrim cond) ['=', '='] = some (fp, vp) →
        values (strTrim fp) = some (JValue.vstr s) →
        evaluate_condition cond values
          = decide (s = trimMatches '\'' (trimMatches '"' (strTrim vp))))
    ∧ (∀ cond fp vp n m, splitOnce (strTrim cond) ['=', '='] = some (fp, vp) →
        values (strTrim fp) = some (JValue.vint n) →
        parseI64 (strTrim vp) = some m →
        evaluate_condition cond values = decide (n = m))
    ∧ (∀ cond fp vp n, splitOnce (strTrim cond) ['=', '='] = some (fp, vp) →
        values (strTrim fp) = some (JValue.vint n) →
        parseI64 (strTrim vp) = none →
        evaluate_condition cond values = true)
    ∧ (∀ cond fp vp, splitOnce (strTrim cond) ['=', '='] = some (fp, vp) →
        values (strTrim fp) = none →
        evaluate_condition cond values = true)
    ∧ (∀ cond fp vp b, splitOnce (strTrim cond) ['=', '='] = none →
        splitOnce (strTrim cond) ['!', '='] = some (fp, vp) →
        values (strTrim fp) = some (JValue.vbool b) →
        evaluate_condition cond values
          = (if strTrim vp = ['t', 'r', 'u', 'e'] then !b
             else if strTrim vp = ['f', 'a', 'l', 's', 'e'] then b else true))
    ∧ (∀ cond fp vp s, splitOnce (strTrim cond) ['=', '='] = none →
        splitOnce (strTrim cond) ['!', '='] = some (fp, vp) →
        values (strTrim fp) = some (JValue.vstr s) →
        evaluate_condition cond values
          = decide (s ≠ trimMatches '\'' (trimMatches '"' (strTrim vp))))
    ∧ (∀ cond fp vp n, splitOnce (strTrim cond) ['=', '='] = none →
        splitOnce (strTrim cond) ['!', '='] = some (fp, vp) →
        values (strTrim fp) = some (JValue.vint n) →
        evaluate_condition cond values = true)
    ∧ (∀ cond fp vp, splitOnce (strTrim cond) ['=', '='] = none →
        splitOnce (strTrim cond) ['!', '='] = some (fp, vp) →
        values (strTrim fp) = none →
        evaluate_condition cond values = true)
    ∧ (∀ cond, splitOnce (strTrim cond) ['=', '='] = none →
        splitOnce (strTrim cond) ['!', '='] = none →
        evaluate_condition cond values = true) := by
  refine ⟨?_, ?_, ?_, ?_, ?_, ?_, ?_, ?_, ?_, ?_⟩
  · intro cond fp vp b hsplit hval
    simp [evaluate_condition, hsplit, hval]
  · intro cond fp vp s hsplit hval
    simp [evaluate_condition, hsplit, hval]
  · intro cond fp vp n m hsplit hval hparse
    simp [evaluate_condition, hsplit, hval, hparse]
  · intro cond fp vp n hsplit hval hparse
    simp [evaluate_condition, hsplit, hval, hparse]
  · intro cond fp vp hsplit hval
    simp [evaluate_condition, hsplit, hval]
  · intro cond fp vp b heq hsplit hval
    simp [evaluate_condition, heq, hsplit, hval]
  · intro cond fp vp s heq hsplit hval
    simp [evaluate_condition, heq, hsplit, hval]
  · intro cond fp vp n heq hsplit hval
    simp [evaluate_condition, heq, hsplit, hval]
  · intro cond fp vp heq hsplit hval
    simp [evaluate_condition, heq, hsplit, hval]
  · intro cond heq hneq
    simp [evaluate_condition, heq, hneq]

/-- C6 witness: the fail-open scenario from the spec (`general.advanced
== true` with the key absent is visible; `false` hides; `true` shows),
driven through the amended theorem's conjuncts, plus a concrete
integer-equality comparison. -/
theorem condition_grammar_amended_witness :
    evaluate_condition ['k', ' ', '=', '=', ' ', 't', 'r', 'u', 'e'] (fun _ => none) = true
      ∧ evaluate_condition ['k', ' ', '=', '=', ' ', 't', 'r', 'u', 'e']
          (fun s => if s = ['k'] then some (JValue.vbool false) else none) = false
      ∧ evaluate_condition ['k', ' ', '=', '=', ' ', 't', 'r', 'u', 'e']
          (fun s => if s = ['k'] then some (JValue.vbool true) else none) = true
      ∧ evaluate_condition ['k', ' ', '=', '=', ' ', '5']
          (fun s => if s = ['k'] then some (JValue.vint 5) else none) = true := by
  refine ⟨?_, ?_, ?_, ?_⟩
  · exact (condition_grammar_amended _).2.2.2.2.1
      ['k', ' ', '=', '=', ' ', 't', 'r', 'u', 'e'] ['k', ' '] [' ', 't', 'r', 'u', 'e']
      (by decide) rfl
  · have h := (condition_grammar_amended
        (fun s => if s = ['k'] then some (JValue.vbool false) else none)).1
      ['k', ' ', '=', '=', ' ', 't', 'r', 'u', 'e'] ['k', ' '] [' ', 't', 'r', 'u', 'e'] false
      (by decide) (by decide)
    simpa using h
  · have h := (condition_grammar_amended
        (fun s => if s = ['k'] then some (JValue.vbool true) else none)).1
      ['k', ' ', '=', '=', ' ', 't', 'r', 'u', 'e'] ['k', ' '] [' ', 't', 'r', 'u', 'e'] true
      (by decide) (by decide)
    simpa using h
  · have h := (condition_grammar_amended
        (fun s => if s = ['k'] then some (JValue.vint 5) else none)).2.2.1
      ['k', ' ', '=', '=', ' ', '5'] ['k', ' '] [' ', '5'] 5 5
      (by decide) (by decide) (by decide)
    simpa using h

/-- Inserting a cache entry makes the key map to that entry. -/
theorem lookupCache_insertCache (cache : OptionCache) (key : Str) (v : CachedOptions) :
    lookupCache (insertCache cache key v) key = some v := by
  induction cache with
  | nil => simp [insertCache, lookupCache]
  | cons p rest ih =>
    obtain ⟨k', w⟩ := p
    by_cases h : k' = key
    · subst h
      simp [insertCache, lookupCache]
    · simp [insertCache, lookupCache, h, ih]

/-- Reading a freshly inserted TTL entry: live strictly inside the
window, absent from the window's end on. -/
theorem OptionCacheGet_insert (cache : OptionCache) (key : Str) (opts : List Str)
    (d t now : Nat) :
    OptionCache.get (OptionCache.insert cache key opts d t) key now
      = if now - t < d * nsPerSec then some opts else none := by
  unfold OptionCache.get OptionCache.insert
  rw [lookupCache_insertCache]
  rfl

/-- C1: for a Script source with a declared TTL, under a cache miss the
first resolution executes the process, succeeds, and stores the parsed
list under the key built from the original template, a `:` and the
substituted command; a second resolution with unchanged substituted
command strictly inside the TTL window returns the identical list from
the cache without executing and leaves the cache unchanged; a resolution
at or after the window's end executes the process again. -/
theorem script_ttl_cache (exec : Str → ExecOutput) (parseJson : Str → Option (List Str))
    (command : Str) (d : Nat) (values : ValueMap) (c0 : OptionCache)
    (t0 t1 t2 : Nat) (opts : List Str)
    (hexec : (exec (substitute_variables command values)).success = true)
    (hparse : parseJson (exec (substitute_variables command values)).stdout = some opts)
    (hmiss : OptionCache.get c0 (scriptCacheKey command values) t0 = none)
    (hwin : t1 - t0 < d * nsPerSec)
    (hexp : d * nsPerSec ≤ t2 - t0) :
    resolve_from_script exec parseJson command (some d) values c0 t0
      = (Except.ok opts,
          OptionCache.insert c0 (scriptCacheKey command values) opts d t0, true)
      ∧ resolve_from_script exec parseJson command (some d) values
          (OptionCache.insert c0 (scriptCacheKey command values) opts d t0) t1
        = (Except.ok opts,
            OptionCache.insert c0 (scriptCacheKey command values) opts d t0, false)
      ∧ (resolve_from_script exec parseJson command (some d) values
          (OptionCache.insert c0 (scriptCacheKey command values) opts d t0) t2).2.2 = true := by
  have hmiss' : OptionCache.get c0 (command ++ ':' :: substitute_variables command values) t0
      = none := hmiss
  refine ⟨?_, ?_, ?_⟩
  · simp [resolve_from_script, hmiss', hexec, hparse, scriptCacheKey]
  · have hget := OptionCacheGet_insert c0 (scriptCacheKey command values) opts d t0 t1
    rw [if_pos hwin] at hget
    have hget' : OptionCache.get
        (OptionCache.insert c0 (scriptCacheKey command values) opts d t0)
        (command ++ ':' :: substitute_variables command values) t1 = some opts := hget
    simp [resolve_from_script, hget']
  · have hget := OptionCacheGet_insert c0 (scriptCacheKey command values) opts d t0 t2
    rw [if_neg (by omega)] at hget
    have hget' : OptionCache.get
        (OptionCache.insert c0 (scriptCacheKey command values) opts d t0)
        (command ++ ':' :: substitute_variables command values) t2 = none := hget
    simp only [resolve_from_script, hget', Option.isSome_some, if_true]
    split
    · rfl
    · split <;> rfl

/-- C1 witness: a concrete template with one placeholder, a 60-second
TTL, a miss at time 0, a hit at 5 ns, and re-execution at the window
boundary. -/
theorem script_ttl_cache_witness :
    resolve_from_script (fun _ => ⟨true, ['a'], []⟩) (fun _ => some [['a']])
        ['e', 'c', 'h', 'o'] (some 60) (fun _ => none) [] 0
      = (Except.ok [['a']],
          OptionCache.insert [] (scriptCacheKey ['e', 'c', 'h', 'o'] (fun _ => none)) [['a']] 60 0,
          true)
      ∧ resolve_from_script (fun _ => ⟨true, ['a'], []⟩) (fun _ => some [['a']])
          ['e', 'c', 'h', 'o'] (some 60) (fun _ => none)
          (OptionCache.insert [] (scriptCacheKey ['e', 'c', 'h', 'o'] (fun _ => none)) [['a']] 60 0) 5
        = (Except.ok [['a']],
            OptionCache.insert [] (scriptCacheKey ['e', 'c', 'h', 'o'] (fun _ => none)) [['a']] 60 0,
            false)
      ∧ (resolve_from_script (fun _ => ⟨true, ['a'], []⟩) (fun _ => some [['a']])
          ['e', 'c', 'h', 'o'] (some 60) (fun _ => none)
          (OptionCache.insert [] (scriptCacheKey ['e', 'c', 'h', 'o'] (fun _ => none)) [['a']] 60 0)
          (60 * nsPerSec)).2.2 = true :=
  script_ttl_cache (fun _ => ⟨true, ['a'], []⟩) (fun _ => some [['a']])
    ['e', 'c', 'h', 'o'] 60 (fun _ => none) [] 0 5 (60 * nsPerSec) [['a']]
    rfl rfl rfl (by decide) (by omega)

/-- C3 counterexample: a script whose successful stdout `a\nb\n` is not
a JSON array: the synchronous path falls back to newline splitting and
succeeds, but the `async` path used by `resolve` propagates the JSON
parse failure and resolution fails — so the claimed fallback does not
hold for every Script resolution. -/
theorem script_json_fallback_counterexample :
    (resolve_from_script (fun _ => ⟨true, ['a', '\n', 'b', '\n'], []⟩) (fun _ => none)
        ['c'] none (fun _ => none) [] 0).1
      = Except.error ['j', 's', 'o', 'n']
      ∧ resolve_from_script_sync (fun _ => ⟨true, ['a', '\n', 'b', '\n'], []⟩) (fun _ => none)
          ['c'] (fun _ => none)
        = Except.ok [['a'], ['b']] := by
  constructor
  · rfl
  · rfl

/-- C3 amended: on a successful exit the synchronous path
(`resolve_from_script_sync`) returns the JSON-parsed array when the
parse succeeds and otherwise still succeeds with the newline-delimited,
trimmed, non-empty lines of stdout; the `async` path used by `resolve`
has no fallback and fails when the JSON parse fails (shown here for an
undeclared TTL and for a declared TTL on a cache miss); a failed exit is
an error carrying stderr on both paths. -/
theorem script_json_fallback_sync_only (exec : Str → ExecOutput)
    (parseJson : Str → Option (List Str)) (command : Str) (values : ValueMap) :
    (∀ opts, (exec (substitute_variables command values)).success = true →
        parseJson (exec (substitute_variables command values)).stdout = some opts →
        resolve_from_script_sync exec parseJson command values = Except.ok opts)
      ∧ ((exec (substitute_variables command values)).success = true →
          parseJson (exec (substitute_variables command values)).stdout = none →
          resolve_from_script_sync exec parseJson command values
            = Except.ok (((rustLines (exec (substitute_variables command values)).stdout).map
                strTrim).filter (fun s => s ≠ [])))
      ∧ ((exec (substitute_variables command values)).success = false →
          resolve_from_script_sync exec parseJson command values
            = Except.error (exec (substitute_variables command values)).stderr)
      ∧ (∀ cache now, (exec (substitute_variables command values)).success = true →
          parseJson (exec (substitute_variables command values)).stdout = none →
          (resolve_from_script exec parseJson command none values cache now).1
            = Except.error ['j', 's', 'o', 'n'])
      ∧ (∀ d cache now, (exec (substitute_variables command values)).success = true →
          parseJson (exec (substitute_variables command values)).stdout = none →
          OptionCache.get cache (scriptCacheKey command values) now = none →
          (resolve_from_script exec parseJson command (some d) values cache now).1
            = Except.error ['j', 's', 'o', 'n']) := by
  refine ⟨?_, ?_, ?_, ?_, ?_⟩
  · intro opts hs hp
    simp [resolve_from_script_sync, hs, hp]
  · intro hs hp
    simp [resolve_from_script_sync, hs, hp]
  · intro hs
    simp [resolve_from_script_sync, hs]
  · intro cache now hs hp
    simp [resolve_from_script, hs, hp]
  · intro d cache now hs hp hmiss
    have hmiss' : OptionCache.get cache
        (command ++ ':' :: substitute_variables command values) now = none := hmiss
    simp [resolve_from_script, hmiss', hs, hp]

/-- C3 amended witness: the three interesting sync/async outcomes on
concrete executions. -/
theorem script_json_fallback_sync_only_witness :
    resolve_from_script_sync (fun _ => ⟨true, ['[', ']'], []⟩) (fun _ => some [])
        ['c'] (fun _ => none) = Except.ok []
      ∧ resolve_from_script_sync (fun _ => ⟨true, [' ', 'x', ' ', '\n', '\n', 'y', '\r', '\n'], []⟩)
          (fun _ => none) ['c'] (fun _ => none) = Except.ok [['x'], ['y']]
      ∧ (resolve_from_script (fun _ => ⟨true, ['z'], []⟩) (fun _ => none)
          ['c'] none (fun _ => none) [] 0).1 = Except.error ['j', 's', 'o', 'n'] := by
  refine ⟨?_, ?_, ?_⟩
  · exact (script_json_fallback_sync_only (fun _ => ⟨true, ['[', ']'], []⟩) (fun _ => some [])
      ['c'] (fun _ => none)).1 [] rfl rfl
  · have h := (script_json_fallback_sync_only
        (fun _ => ⟨true, [' ', 'x', ' ', '\n', '\n', 'y', '\r', '\n'], []⟩)
        (fun _ => none) ['c'] (fun _ => none)).2.1 rfl rfl
    rw [h]
    rfl
  · exact (script_json_fallback_sync_only (fun _ => ⟨true, ['z'], []⟩) (fun _ => none)
      ['c'] (fun _ => none)).2.2.2.1 [] 0 rfl rfl

/-! ### Substitution (C4): relating the capture-then-replace loop to
one-pass simultaneous substitution over benign templates. -/

/-- `breakAtBrace` splits a brace-free name followed by a brace
exactly. -/
theorem breakAtBrace_name (v r : Str) (h : '}' ∉ v) :
    breakAtBrace (v ++ '}' :: r) = some (v, r) := by
  induction v with
  | nil => simp [breakAtBrace]
  | cons c v' ih =>
    have hc : c ≠ '}' := fun e => h (e ▸ List.mem_cons_self c v')
    have h' : '}' ∉ v' := fun hm => h (List.mem_cons_of_mem _ hm)
    simp [breakAtBrace, hc, ih h']

/-- The capture scan ignores a dollar-free prefix. -/
theorem findVars_append_of_no_dollar (l : Str) (s : Str) (h : '$' ∉ l) :
    findVars (l ++ s) = findVars s := by
  induction l with
  | nil => rfl
  | cons c l' ih =>
    have hc : c ≠ '$' := fun e => h (e ▸ List.mem_cons_self c l')
    have h' : '$' ∉ l' := fun hm => h (List.mem_cons_of_mem _ hm)
    cases hls : l' ++ s with
    | nil =>
      obtain ⟨hl', hs⟩ := List.append_eq_nil.mp hls
      subst hl'
      subst hs
      simp [findVars]
    | cons d tail =>
      have hstep : findVars (c :: d :: tail) = findVars (d :: tail) := by
        rw [findVars]
        simp [hc]
      rw [List.cons_append, hls, hstep, ← hls, ih h']

/-- The capture scan reads a clean placeholder at the head and
continues after it. -/
theorem findVars_pat_cons (v s : Str) (hnil : v ≠ []) (hbr : '}' ∉ v) :
    findVars (mkPat v ++ s) = v :: findVars s := by
  have hb : breakAtBrace ((v ++ ['}']) ++ s) = some (v, s) := by
    rw [List.append_assoc]
    exact breakAtBrace_name v s hbr
  show findVars ('$' :: '{' :: ((v ++ ['}']) ++ s)) = v :: findVars s
  rw [findVars]
  rw [if_pos ⟨rfl, rfl⟩]
  split
  next name after hmatch =>
    have hsome := hb.symm.trans hmatch
    simp only [Option.some.injEq, Prod.mk.injEq] at hsome
    obtain ⟨rfl, rfl⟩ := hsome
    simp [hnil]
  next hmatch =>
    rw [hb] at hmatch
    exact absurd hmatch (by simp)

/-- One-pass substitution ignores a dollar-free prefix. -/
theorem specSubstitute_append_of_no_dollar (values : ValueMap) (l s : Str) (h : '$' ∉ l) :
    specSubstitute values (l ++ s) = l ++ specSubstitute values s := by
  induction l with
  | nil => rfl
  | cons c l' ih =>
    have hc : c ≠ '$' := fun e => h (e ▸ List.mem_cons_self c l')
    have h' : '$' ∉ l' := fun hm => h (List.mem_cons_of_mem _ hm)
    cases hls : l' ++ s with
    | nil =>
      obtain ⟨hl', hs⟩ := List.append_eq_nil.mp hls
      subst hl'
      subst hs
      simp [specSubstitute]
    | cons d tail =>
      have hstep : specSubstitute values (c :: d :: tail) = c :: specSubstitute values (d :: tail) := by
        rw [specSubstitute]
        simp [hc]
      rw [List.cons_append, hls, hstep, ← hls, ih h']
      rfl

/-- One-pass substitution expands a clean placeholder at the head and
continues after it. -/
theorem specSubstitute_pat_cons (values : ValueMap) (v s : Str) (hnil : v ≠ []) (hbr : '}' ∉ v) :
    specSubstitute values (mkPat v ++ s)
      = stringifyValue (values v) ++ specSubstitute values s := by
  have hb : breakAtBrace ((v ++ ['}']) ++ s) = some (v, s) := by
    rw [List.append_assoc]
    exact breakAtBrace_name v s hbr
  show specSubstitute values ('$' :: '{' :: ((v ++ ['}']) ++ s))
      = stringifyValue (values v) ++ specSubstitute values s
  rw [specSubstitute]
  rw [if_pos ⟨rfl, rfl⟩]
  split
  next name after hmatch =>
    have hsome := hb.symm.trans hmatch
    simp only [Option.some.injEq, Prod.mk.injEq] at hsome
    obtain ⟨rfl, rfl⟩ := hsome
    simp [hnil]
  next hmatch =>
    rw [hb] at hmatch
    exact absurd hmatch (by simp)

/-- Global replacement of a `${..}` pattern passes over a dollar-free
prefix untouched. -/
theorem replaceAll_append_of_no_dollar (v rep : Str) (l s : Str) (h : '$' ∉ l) :
    replaceAll (mkPat v) rep (l ++ s) = l ++ replaceAll (mkPat v) rep s := by
  induction l with
  | nil => rfl
  | cons c l' ih =>
    have hc : c ≠ '$' := fun e => h (e ▸ List.mem_cons_self c l')
    have h' : '$' ∉ l' := fun hm => h (List.mem_cons_of_mem _ hm)
    have hpre : (mkPat v).isPrefixOf (c :: (l' ++ s)) = false := by
      show (('$' :: '{' :: (v ++ ['}'])).isPrefixOf (c :: (l' ++ s))) = false
      simp [List.isPrefixOf, Ne.symm hc]
    rw [List.cons_append, replaceAll]
    simp only [hpre, Bool.false_eq_true, and_false, ne_eq, if_false]
    rw [ih h']
    rfl

/-- Global replacement replaces the pattern when the string starts with
it. -/
theorem replaceAll_head_match (pat rep s : Str) (h : pat ≠ []) :
    replaceAll pat rep (pat ++ s) = rep ++ replaceAll pat rep s := by
  cases pat with
  | nil => exact absurd rfl h
  | cons p pr =>
    rw [List.cons_append, replaceAll]
    have hpre : (p :: pr).isPrefixOf (p :: (pr ++ s)) = true := by
      have : (p :: pr) <+: ((p :: pr) ++ s) := List.prefix_append _ _
      simpa [List.isPrefixOf_iff_prefix] using this
    rw [if_pos ⟨by simp, hpre⟩]
    have hdrop : (p :: (pr ++ s)).drop (p :: pr).length = s := by
      have : ((p :: pr) ++ s).drop (p :: pr).length = s := List.drop_left _ _
      simpa using this
    rw [hdrop]

/-- Distinct brace-free names give non-overlapping patterns: the pattern
of `v` is not a prefix where the pattern of `w ≠ v` begins. -/
theorem pat_not_prefixOf_pat (v w : Str) (s : Str) (hvw : v ≠ w)
    (hv : '}' ∉ v) (hw : '}' ∉ w) :
    (mkPat v).isPrefixOf (mkPat w ++ s) = false := by
  show (('$' :: '{' :: (v ++ ['}'])).isPrefixOf
      ('$' :: '{' :: ((w ++ ['}']) ++ s))) = false
  simp only [List.isPrefixOf, Bool.and_eq_false_iff, beq_self_eq_true, Bool.true_and]
  have main : ∀ (v w : Str), v ≠ w → '}' ∉ v → '}' ∉ w →
      ((v ++ ['}']).isPrefixOf ((w ++ ['}']) ++ s)) = false := by
    intro v
    induction v with
    | nil =>
      intro w hvw hv hw
      cases w with
      | nil => exact absurd rfl hvw
      | cons c w' =>
        have hc : c ≠ '}' := fun e => hw (e ▸ List.mem_cons_self c w')
        simp [List.isPrefixOf, Ne.symm hc]
    | cons a v' ih =>
      intro w hvw hv hw
      have ha : a ≠ '}' := fun e => hv (e ▸ List.mem_cons_self a v')
      have hv' : '}' ∉ v' := fun hm => hv (List.mem_cons_of_mem _ hm)
      cases w with
      | nil =>
        simp [List.isPrefixOf, ha]
      | cons c w' =>
        have hw' : '}' ∉ w' := fun hm => hw (List.mem_cons_of_mem _ hm)
        by_cases hac : a = c
        · subst hac
          have hne : v' ≠ w' := fun e => hvw (by rw [e])
          have hih := ih w' hne hv' hw'
          simp only [List.append_assoc, List.singleton_append] at hih
          simp [List.isPrefixOf, hih]
        · simp [List.isPrefixOf, hac]
  simpa using main v w hvw hv hw

/-- Global replacement of `v`'s pattern passes over the pattern of a
different clean name untouched. -/
theorem replaceAll_pat_other (v rep w : Str) (s : Str) (hvw : w ≠ v)
    (hv : '}' ∉ v) (hw : '$' ∉ w) (hwbr : '}' ∉ w) :
    replaceAll (mkPat v) rep (mkPat w ++ s) = mkPat w ++ replaceAll (mkPat v) rep s := by
  have hchunk : '$' ∉ ('{' :: (w ++ ['}'])) := by
    intro hm
    rcases List.mem_cons.mp hm with h1 | h1
    · exact absurd h1.symm (by decide)
    · rcases List.mem_append.mp h1 with h2 | h2
      · exact hw h2
      · exact absurd (List.mem_singleton.mp h2) (by decide)
  have hpre0 := pat_not_prefixOf_pat v w s (fun e => hvw e.symm) hv hwbr
  have hform : mkPat w ++ s = '$' :: (('{' :: (w ++ ['}'])) ++ s) := by
    simp [mkPat]
  rw [hform] at hpre0
  rw [hform, replaceAll]
  rw [if_neg (fun hcontra => by
    have h2 := hcontra.2
    rw [hpre0] at h2
    exact absurd h2 (by decide))]
  rw [replaceAll_append_of_no_dollar v rep _ s hchunk]
  simp [mkPat]

/-- Rendering a token list unfolds one token at a time. -/
theorem renderTemplate_cons (t : Tok) (ts : List Tok) :
    renderTemplate (t :: ts) = renderTok t ++ renderTemplate ts := by
  simp [renderTemplate]

/-- On a benign template the capture scan finds exactly the placeholder
names, in order. -/
theorem findVars_renderTemplate (ts : List Tok)
    (hlit : ∀ l, Tok.lit l ∈ ts → '$' ∉ l)
    (hvar : ∀ v, Tok.var v ∈ ts → v ≠ [] ∧ '}' ∉ v) :
    findVars (renderTemplate ts) = varsOf ts := by
  induction ts with
  | nil => simp [renderTemplate, varsOf, findVars]
  | cons t ts' ih =>
    have hlit' : ∀ l, Tok.lit l ∈ ts' → '$' ∉ l :=
      fun l hl => hlit l (List.mem_cons_of_mem _ hl)
    have hvar' : ∀ v, Tok.var v ∈ ts' → v ≠ [] ∧ '}' ∉ v :=
      fun v hv => hvar v (List.mem_cons_of_mem _ hv)
    cases t with
    | lit l =>
      rw [renderTemplate_cons]
      show findVars (l ++ renderTemplate ts') = varsOf (Tok.lit l :: ts')
      rw [findVars_append_of_no_dollar l _ (hlit l (List.mem_cons_self _ _))]
      rw [ih hlit' hvar']
      simp [varsOf]
    | var v =>
      obtain ⟨hnil, hbr⟩ := hvar v (List.mem_cons_self _ _)
      rw [renderTemplate_cons]
      show findVars (mkPat v ++ renderTemplate ts') = varsOf (Tok.var v :: ts')
      rw [findVars_pat_cons v _ hnil hbr, ih hlit' hvar']
      simp [varsOf]

/-- On a benign template the one-pass substitution computes the
simultaneous token substitution. -/
theorem specSubstitute_renderTemplate (values : ValueMap) (ts : List Tok)
    (hlit : ∀ l, Tok.lit l ∈ ts → '$' ∉ l)
    (hvar : ∀ v, Tok.var v ∈ ts → v ≠ [] ∧ '}' ∉ v) :
    specSubstitute values (renderTemplate ts) = renderSubbed values ts := by
  induction ts with
  | nil => simp [renderTemplate, renderSubbed, specSubstitute]
  | cons t ts' ih =>
    have hlit' : ∀ l, Tok.lit l ∈ ts' → '$' ∉ l :=
      fun l hl => hlit l (List.mem_cons_of_mem _ hl)
    have hvar' : ∀ v, Tok.var v ∈ ts' → v ≠ [] ∧ '}' ∉ v :=
      fun v hv => hvar v (List.mem_cons_of_mem _ hv)
    cases t with
    | lit l =>
      rw [renderTemplate_cons]
      show specSubstitute values (l ++ renderTemplate ts') = renderSubbed values (Tok.lit l :: ts')
      rw [specSubstitute_append_of_no_dollar values l _ (hlit l (List.mem_cons_self _ _))]
      rw [ih hlit' hvar']
      simp [renderSubbed]
    | var v =>
      obtain ⟨hnil, hbr⟩ := hvar v (List.mem_cons_self _ _)
      rw [renderTemplate_cons]
      show specSubstitute values (mkPat v ++ renderTemplate ts')
          = renderSubbed values (Tok.var v :: ts')
      rw [specSubstitute_pat_cons values v _ hnil hbr, ih hlit' hvar']
      simp [renderSubbed]

/-- One global replacement step over a rendered benign template
substitutes exactly the matching placeholder tokens. -/
theorem replaceAll_renderTemplate (v rep : Str) (hv : '}' ∉ v) (ts : List Tok)
    (hlit : ∀ l, Tok.lit l ∈ ts → '$' ∉ l)
    (hvar : ∀ w, Tok.var w ∈ ts → '$' ∉ w ∧ '}' ∉ w) :
    replaceAll (mkPat v) rep (renderTemplate ts)
      = renderTemplate (ts.map (substTok v rep)) := by
  induction ts with
  | nil => simp [renderTemplate, replaceAll]
  | cons t ts' ih =>
    have hlit' : ∀ l, Tok.lit l ∈ ts' → '$' ∉ l :=
      fun l hl => hlit l (List.mem_cons_of_mem _ hl)
    have hvar' : ∀ w, Tok.var w ∈ ts' → '$' ∉ w ∧ '}' ∉ w :=
      fun w hw => hvar w (List.mem_cons_of_mem _ hw)
    cases t with
    | lit l =>
      rw [renderTemplate_cons]
      show replaceAll (mkPat v) rep (l ++ renderTemplate ts')
          = renderTemplate ((Tok.lit l :: ts').map (substTok v rep))
      rw [replaceAll_append_of_no_dollar v rep l _ (hlit l (List.mem_cons_self _ _))]
      rw [ih hlit' hvar']
      simp [substTok, renderTemplate_cons, renderTok]
    | var w =>
      rw [renderTemplate_cons]
      by_cases hwv : w = v
      · subst hwv
        show replaceAll (mkPat w) rep (mkPat w ++ renderTemplate ts')
            = renderTemplate ((Tok.var w :: ts').map (substTok w rep))
        rw [replaceAll_head_match (mkPat w) rep _ (by simp [mkPat])]
        rw [ih hlit' hvar']
        simp [substTok, renderTemplate_cons, renderTok]
      · obtain ⟨hwd, hwbr⟩ := hvar w (List.mem_cons_self _ _)
        show replaceAll (mkPat v) rep (mkPat w ++ renderTemplate ts')
            = renderTemplate ((Tok.var w :: ts').map (substTok v rep))
        rw [replaceAll_pat_other v rep w _ hwv hv hwd hwbr]
        rw [ih hlit' hvar']
        simp [substTok, hwv, renderTemplate_cons, renderTok]

/-- The capture-then-replace fold over a rendered benign template equals
the rendered token-level fold. -/
theorem foldl_replaceAll_render (values : ValueMap) :
    ∀ (vs : List Str) (ts : List Tok),
      (∀ v ∈ vs, '$' ∉ stringifyValue (values v) ∧ '}' ∉ v) →
      (∀ l, Tok.lit l ∈ ts → '$' ∉ l) →
      (∀ w, Tok.var w ∈ ts → '$' ∉ w ∧ '}' ∉ w) →
      vs.foldl (fun r v => replaceAll (mkPat v) (stringifyValue (values v)) r) (renderTemplate ts)
        = renderTemplate
            (vs.foldl (fun acc v => acc.map (substTok v (stringifyValue (values v)))) ts) := by
  intro vs
  induction vs with
  | nil => intro ts _ _ _; rfl
  | cons v vs' ih =>
    intro ts hvs hlit hvar
    have hvhead := hvs v (List.mem_cons_self _ _)
    simp only [List.foldl_cons]
    rw [replaceAll_renderTemplate v _ hvhead.2 ts hlit hvar]
    refine ih (ts.map (substTok v (stringifyValue (values v))))
      (fun u hu => hvs u (List.mem_cons_of_mem _ hu)) ?_ ?_
    · intro l hl
      rcases List.mem_map.mp hl with ⟨t, ht, he⟩
      cases t with
      | lit l0 =>
        simp only [substTok] at he
        injection he with he'
        subst he'
        exact hlit l0 ht
      | var w =>
        simp only [substTok] at he
        by_cases hwv : w = v
        · rw [if_pos hwv] at he
          injection he with he'
          subst he'
          exact hvhead.1
        · rw [if_neg hwv] at he
          exact absurd he (by simp)
    · intro w hw
      rcases List.mem_map.mp hw with ⟨t, ht, he⟩
      cases t with
      | lit l0 =>
        simp only [substTok] at he
        exact absurd he (by simp)
      | var w0 =>
        simp only [substTok] at he
        by_cases hwv : w0 = v
        · rw [if_pos hwv] at he
          exact absurd he (by simp)
        · rw [if_neg hwv] at he
          injection he with he'
          subst he'
          exact hvar w0 ht

/-- Folding token maps equals mapping the per-token fold. -/
theorem foldl_map_eq_map_foldl {α β : Type} (g : β → α → α) :
    ∀ (vs : List β) (ts : List α),
      vs.foldl (fun acc v => acc.map (g v)) ts
        = ts.map (fun t => vs.foldl (fun x v => g v x) t) := by
  intro vs
  induction vs with
  | nil => intro ts; simp
  | cons v vs' ih =>
    intro ts
    simp only [List.foldl_cons]
    rw [ih (ts.map (g v)), List.map_map]
    rfl

/-- A literal token survives every substitution step. -/
theorem foldl_substTok_lit (values : ValueMap) (vs : List Str) (l : Str) :
    vs.foldl (fun x v => substTok v (stringifyValue (values v)) x) (Tok.lit l) = Tok.lit l := by
  induction vs with
  | nil => rfl
  | cons v vs' ih => simpa [substTok] using ih

/-- A placeholder token of a processed name ends as its value. -/
theorem foldl_substTok_var (values : ValueMap) (vs : List Str) (w : Str) (hw : w ∈ vs) :
    vs.foldl (fun x v => substTok v (stringifyValue (values v)) x) (Tok.var w)
      = Tok.lit (stringifyValue (values w)) := by
  induction vs with
  | nil => exact absurd hw (by simp)
  | cons v vs' ih =>
    by_cases hwv : w = v
    · subst hwv
      simp only [List.foldl_cons, substTok, if_pos rfl]
      exact foldl_substTok_lit values vs' _
    · have hw' : w ∈ vs' := by
        rcases List.mem_cons.mp hw with h | h
        · exact absurd h hwv
        · exact h
      simp only [List.foldl_cons, substTok, if_neg hwv]
      exact ih hw'

/-- Rendering the fully substituted token list is the simultaneous
substitution. -/
theorem renderTemplate_allLit (values : ValueMap) (ts : List Tok) :
    renderTemplate (ts.map (fun t => match t with
      | Tok.lit l => Tok.lit l
      | Tok.var w => Tok.lit (stringifyValue (values w)))) = renderSubbed values ts := by
  induction ts with
  | nil => rfl
  | cons t ts' ih =>
    cases t with
    | lit l => simpa [renderTemplate_cons, renderSubbed, renderTok] using ih
    | var w => simpa [renderTemplate_cons, renderSubbed, renderTok] using ih

/-- C4 (amended): `substitute_variables` never fails (it is total), and
on every benign template — literal segments without `$`, placeholder
names non-empty and free of `$` and the closing brace, every substituted
value's stringification free of `$` — the capture-then-global-replace
loop computes exactly the simultaneous one-pass substitution: every
occurrence of each `${name}` placeholder is replaced by the stringified
value (booleans as `true`/`false`, numbers in decimal, missing keys as
the empty string), with no recursive expansion.  Outside that benign
class the loop can re-expand placeholder text introduced by a
substituted value (see the counterexample). -/
theorem substitute_variables_simultaneous (values : ValueMap) (ts : List Tok)
    (hben : ∀ t ∈ ts, match t with
      | Tok.lit l => '$' ∉ l
      | Tok.var v => v ≠ [] ∧ '$' ∉ v ∧ '}' ∉ v ∧ '$' ∉ stringifyValue (values v)) :
    substitute_variables (renderTemplate ts) values = renderSubbed values ts
      ∧ substitute_variables (renderTemplate ts) values
        = specSubstitute values (renderTemplate ts) := by
  have hlit : ∀ l, Tok.lit l ∈ ts → '$' ∉ l := fun l hl => hben _ hl
  have hvarA : ∀ v, Tok.var v ∈ ts → v ≠ [] ∧ '}' ∉ v :=
    fun v hv => ⟨(hben _ hv).1, (hben _ hv).2.2.1⟩
  have hvarB : ∀ w, Tok.var w ∈ ts → '$' ∉ w ∧ '}' ∉ w :=
    fun w hw => ⟨(hben _ hw).2.1, (hben _ hw).2.2.1⟩
  have hvarsMem : ∀ v, v ∈ varsOf ts → Tok.var v ∈ ts := by
    intro v hv
    rcases List.mem_filterMap.mp hv with ⟨t, ht, he⟩
    cases t with
    | lit l => exact absurd he (by simp)
    | var w =>
      simp only [Option.some.injEq] at he
      subst he
      exact ht
  have hmain : substitute_variables (renderTemplate ts) values = renderSubbed values ts := by
    unfold substitute_variables
    rw [findVars_renderTemplate ts hlit hvarA]
    rw [foldl_replaceAll_render values (varsOf ts) ts
      (fun v hv => ⟨(hben _ (hvarsMem v hv)).2.2.2, (hben _ (hvarsMem v hv)).2.2.1⟩)
      hlit hvarB]
    rw [foldl_map_eq_map_foldl]
    have hmapeq : ts.map (fun t =>
          (varsOf ts).foldl (fun x v => substTok v (stringifyValue (values v)) x) t)
        = ts.map (fun t => match t with
          | Tok.lit l => Tok.lit l
          | Tok.var w => Tok.lit (stringifyValue (values w))) := by
      apply List.map_congr_left
      intro t ht
      cases t with
      | lit l => exact foldl_substTok_lit values _ l
      | var w =>
        have hwmem : w ∈ varsOf ts := List.mem_filterMap.mpr ⟨Tok.var w, ht, rfl⟩
        exact foldl_substTok_var values _ w hwmem
    rw [hmapeq, renderTemplate_allLit]
  exact ⟨hmain, hmain.trans (specSubstitute_renderTemplate values ts hlit hvarA).symm⟩

/-- C4 witness: template `${p} ${q}` with `p` a string value and `q`
missing from the value map (substituted by the empty string): the loop
replaces both placeholders simultaneously. -/
theorem substitute_variables_simultaneous_witness :
    substitute_variables
        (renderTemplate [Tok.var ['p'], Tok.lit [' '], Tok.var ['q']])
        (fun s => if s = ['p'] then some (JValue.vstr ['A']) else none)
      = renderSubbed (fun s => if s = ['p'] then some (JValue.vstr ['A']) else none)
        [Tok.var ['p'], Tok.lit [' '], Tok.var ['q']]
      ∧ substitute_variables
          (renderTemplate [Tok.var ['p'], Tok.lit [' '], Tok.var ['q']])
          (fun s => if s = ['p'] then some (JValue.vstr ['A']) else none)
        = specSubstitute (fun s => if s = ['p'] then some (JValue.vstr ['A']) else none)
          (renderTemplate [Tok.var ['p'], Tok.lit [' '], Tok.var ['q']]) :=
  substitute_variables_simultaneous
    (fun s => if s = ['p'] then some (JValue.vstr ['A']) else none)
    [Tok.var ['p'], Tok.lit [' '], Tok.var ['q']]
    (by
      rintro t ht
      simp only [List.mem_cons, List.not_mem_nil, or_false] at ht
      rcases ht with rfl | rfl | rfl
      · exact ⟨by decide, by decide, by decide, by decide⟩
      · exact (by decide)
      · exact ⟨by decide, by decide, by decide, by decide⟩)

/-- C4 counterexample: template `${p} ${q}` with `p` bound to the
placeholder-shaped text `${q}` and `q` bound to `Z`.  The claim's
"no recursive expansion" demands the result `${q} Z`, which is what the
one-pass semantics produces; the implementation's sequential global
replacement instead re-expands the introduced `${q}` and yields `Z Z`. -/
theorem substitute_variables_recursive_expansion_counterexample :
    substitute_variables ['$', '{', 'p', '}', ' ', '$', '{', 'q', '}']
        (fun s => if s = ['p'] then some (JValue.vstr ['$', '{', 'q', '}'])
          else if s = ['q'] then some (JValue.vstr ['Z']) else none)
      = ['Z', ' ', 'Z']
      ∧ specSubstitute
          (fun s => if s = ['p'] then some (JValue.vstr ['$', '{', 'q', '}'])
            else if s = ['q'] then some (JValue.vstr ['Z']) else none)
          ['$', '{', 'p', '}', ' ', '$', '{', 'q', '}']
        = ['$', '{', 'q', '}', ' ', 'Z']
      ∧ substitute_variables ['$', '{', 'p', '}', ' ', '$', '{', 'q', '}']
          (fun s => if s = ['p'] then some (JValue.vstr ['$', '{', 'q', '}'])
            else if s = ['q'] then some (JValue.vstr ['Z']) else none)
        ≠ specSubstitute
            (fun s => if s = ['p'] then some (JValue.vstr ['$', '{', 'q', '}'])
              else if s = ['q'] then some (JValue.vstr ['Z']) else none)
            ['$', '{', 'p', '}', ' ', '$', '{', 'q', '}'] := by
  have h1 : substitute_variables ['$', '{', 'p', '}', ' ', '$', '{', 'q', '}']
      (fun s => if s = ['p'] then some (JValue.vstr ['$', '{', 'q', '}'])
        else if s = ['q'] then some (JValue.vstr ['Z']) else none)
      = ['Z', ' ', 'Z'] := by
    simp [substitute_variables, findVars, breakAtBrace, replaceAll, mkPat,
      stringifyValue, List.isPrefixOf]
  have h2 : specSubstitute
      (fun s => if s = ['p'] then some (JValue.vstr ['$', '{', 'q', '}'])
        else if s = ['q'] then some (JValue.vstr ['Z']) else none)
      ['$', '{', 'p', '}', ' ', '$', '{', 'q', '}']
      = ['$', '{', 'q', '}', ' ', 'Z'] := by
    simp [specSubstitute, breakAtBrace, stringifyValue]
  refine ⟨h1, h2, ?_⟩
  rw [h1, h2]
  decide

end SchemaTui
